import Mathlib

/-!
# Verification of the Last Sentinel signal-interception engine

Shallow embedding of the engine's core modules:

* `server/lib/scraper.js` — URL guard (`validateUrl`), content analyzer
  (`checkForSignal`, `extractRelevantContent`), decorative noise
  (`generateNoise`);
* `server/lib/insforge.js` — AI input sanitization (`ai.sanitizeInput`,
  `ai.sanitizeKeywords`) and AI-reply post-processing (`ai.analyzeSignal`);
* `server/lib/signal.js` — session scheduler (`startMonitoring`,
  `stopMonitoring`, `getStatus`, `forceScan`) and the per-tick scan loop.

Page text is modelled as `List Char` (JS strings are indexable character
sequences); external effects (HTTP fetch, the AI completion call, the
random generator) are oracle parameters, and the storage / push
collaborators are modelled by an explicit event trace.
-/

namespace LastSentinel

/-! ## Content analyzer (`server/lib/scraper.js`) -/

/-- Source: `MAX_TEXT_LENGTH` from scraper.js. -/
def MAX_TEXT_LENGTH : Nat := 50000

/-- Source: `CONTEXT_RADIUS` from scraper.js: characters kept around a keyword. -/
def CONTEXT_RADIUS : Nat := 200

/-- Source: `MAX_OCCURRENCES` from scraper.js: occurrences extracted per keyword. -/
def MAX_OCCURRENCES : Nat := 3

/-- Source: `MAX_EXCERPT_LENGTH` from scraper.js: bound on the joined excerpt. -/
def MAX_EXCERPT_LENGTH : Nat := 3000

/-- JS `String.prototype.toLowerCase`, per character. -/
def lowerL (l : List Char) : List Char := l.map Char.toLower

/-- Position of the first match of `pat` in `hay` (JS `indexOf(pat, 0)`). -/
def firstMatch (hay pat : List Char) : Option Nat :=
  if pat.isPrefixOf hay then some 0
  else
    match hay with
    | [] => none
    | _ :: t => (firstMatch t pat).map (· + 1)

/-- JS `hay.indexOf(pat, start)`: first match position that is `≥ start`. -/
def indexOfFrom (hay pat : List Char) (start : Nat) : Option Nat :=
  (firstMatch (hay.drop start) pat).map (· + start)

/-- JS `hay.includes(pat)`. -/
def containsSub (hay pat : List Char) : Bool :=
  (firstMatch hay pat).isSome

/-- The occurrence-collection loop of `extractRelevantContent`: starting the
search at `start`, collect up to `fuel` match positions, advancing past each
hit by the keyword length (`index += keyword.length`). -/
def findOccs (lowText lowKw : List Char) (start fuel : Nat) : List Nat :=
  match fuel with
  | 0 => []
  | f + 1 =>
    match indexOfFrom lowText lowKw start with
    | none => []
    | some i => i :: findOccs lowText lowKw (i + lowKw.length) f

/-- JS `String.prototype.trim`. -/
def trimL (l : List Char) : List Char :=
  ((l.dropWhile Char.isWhitespace).reverse.dropWhile Char.isWhitespace).reverse

/-- The literal ellipsis marker `'...'` added by `extractRelevantContent`. -/
def dots : List Char := ['.', '.', '.']

/-- One excerpt of `extractRelevantContent`: the window
`[max 0 (idx-200), min len (idx+|kw|+200))` around occurrence `idx`,
trimmed, with `'...'` prepended when `start > 0` and appended when
`end < text.length`.  (`idx - CONTEXT_RADIUS` over `Nat` is exactly
`Math.max(0, index - contextRadius)`.) -/
def occurrenceExcerpt (text kw : List Char) (idx : Nat) : List Char :=
  let start := idx - CONTEXT_RADIUS
  let stop := min text.length (idx + kw.length + CONTEXT_RADIUS)
  let core := trimL ((text.drop start).take (stop - start))
  (if 0 < start then dots else []) ++ core ++ (if stop < text.length then dots else [])

/-- The separator `'\n\n---\n\n'` used by `excerpts.join`. -/
def SEPARATOR : List Char := ['\n', '\n', '-', '-', '-', '\n', '\n']

/-- JS `Array.prototype.join` with `SEPARATOR`. -/
def joinExcerpts : List (List Char) → List Char
  | [] => []
  | [e] => e
  | e :: rest => e ++ SEPARATOR ++ joinExcerpts rest

/-- Source: `extractRelevantContent(text, keywords)` from scraper.js: per keyword up
to `MAX_OCCURRENCES` case-insensitive occurrences, a `CONTEXT_RADIUS` window
around each, joined and hard-truncated to `MAX_EXCERPT_LENGTH`. -/
def extractRelevantContent (text : List Char) (keywords : List (List Char)) : List Char :=
  let excerpts := (keywords.map (fun kw =>
    (findOccs (lowerL text) (lowerL kw) 0 MAX_OCCURRENCES).map (occurrenceExcerpt text kw))).flatten
  (joinExcerpts excerpts).take MAX_EXCERPT_LENGTH

/-- The keyword filter of `checkForSignal`: case-insensitive substring
containment, keeping input order and casing. -/
def matchKeywords (text : List Char) (keywords : List (List Char)) : List (List Char) :=
  keywords.filter (fun kw => containsSub (lowerL text) (lowerL kw))

/-- Source: `{changed, matched, content, hash}` returned by `checkForSignal`. -/
structure ScanResult where
  changed : Bool
  matched : List (List Char)
  content : List Char
  hash : String
deriving Repr, DecidableEq

/-- The pure part of `checkForSignal(url, keywords, lastHash)` once the page
text has been fetched: compare the new hash against `lastHash`
(`hash !== lastHash`; a `null` stored hash always counts as changed), and
only on change run keyword matching and excerpt extraction. -/
def checkForSignalCore (hashFn : List Char → String) (text : List Char)
    (keywords : List (List Char)) (lastHash : Option String) : ScanResult :=
  let hash := hashFn text
  let changed : Bool :=
    match lastHash with
    | none => true
    | some h => hash != h
  if changed = false then ⟨false, [], [], hash⟩
  else
    let matched := matchKeywords text keywords
    if matched.isEmpty then ⟨true, [], [], hash⟩
    else ⟨true, matched, extractRelevantContent text matched, hash⟩

/-! ## URL guard (`validateUrl` in scraper.js)

The platform `new URL(...)` constructor is modelled by `parseURL`, a
simplified WHATWG-style parser covering scheme, authority (userinfo
stripped, bracketed IPv6 hosts, decimal port with the scheme-default port
elided), and the remainder of the URL; hostnames are lowercased and
`href` is reassembled by `urlHref`. -/

/-- Components of a parsed URL, mirroring the fields of the platform `URL`
object that `validateUrl` consumes (`protocol`, `hostname`, `port`,
and the remainder used to rebuild `href`). -/
structure URLRec where
  protocol : String
  hostname : String
  port : Option Nat
  path : String
  slashes : Bool
deriving Repr, DecidableEq

/-- Characters allowed in a URL scheme after the leading letter. -/
def isSchemeChar (c : Char) : Bool :=
  c.isAlpha || c.isDigit || c = '+' || c = '-' || c = '.'

/-- Split `scheme:` off the front of a URL; `none` when there is no valid
scheme followed by a colon (the string does not parse as an absolute URL). -/
def splitScheme (l : List Char) : Option (List Char × List Char) :=
  match l with
  | [] => none
  | c :: _ =>
    if c.isAlpha then
      let scheme := l.takeWhile (fun ch => isSchemeChar ch)
      let rest := l.dropWhile (fun ch => isSchemeChar ch)
      match rest with
      | ':' :: r => some (scheme, r)
      | _ => none
    else none

/-- Decimal digit run to a number (JS `Number` on a digit string). -/
def charsToNat (ds : List Char) : Nat :=
  ds.foldl (fun acc c => acc * 10 + (c.toNat - '0'.toNat)) 0

/-- Parse the optional `:port` tail of an authority: `some none` when the
port is absent or empty (scheme default), `some (some p)` for a valid
decimal port, `none` when the port is malformed. -/
def parsePortDigits (ds : List Char) : Option (Option Nat) :=
  if ds = [] then some none
  else if ds.all Char.isDigit then
    let p := charsToNat ds
    if p ≤ 65535 then some (some p) else none
  else none

/-- Schemes whose URLs require a non-empty host. -/
def specialHostSchemes : List String := ["http:", "https:", "ftp:", "ws:", "wss:"]

/-- Parse an authority component into `(hostname, port)`: strip userinfo,
accept a bracketed IPv6 host or a plain host, lowercase the host, and elide
the scheme-default port as the platform `URL` does. -/
def parseAuthority (auth : List Char) (protocol : String) : Option (String × Option Nat) :=
  let hostport := (auth.reverse.takeWhile (fun c => c ≠ '@')).reverse
  let parsed : Option (List Char × List Char) :=
    match hostport with
    | '[' :: r =>
      if r.contains ']' then
        let inside := r.takeWhile (fun c => c ≠ ']')
        let after := (r.dropWhile (fun c => c ≠ ']')).drop 1
        match after with
        | [] => some ('[' :: (inside ++ [']']), [])
        | ':' :: ds => some ('[' :: (inside ++ [']']), ds)
        | _ => none
      else none
    | _ =>
      let host := hostport.takeWhile (fun c => c ≠ ':')
      let after := hostport.dropWhile (fun c => c ≠ ':')
      match after with
      | [] => some (host, [])
      | ':' :: ds => some (host, ds)
      | _ => none
  match parsed with
  | none => none
  | some (hostCs, portCs) =>
    if hostCs = [] ∧ specialHostSchemes.contains protocol then none
    else
      match parsePortDigits portCs with
      | none => none
      | some port0 =>
        let port : Option Nat :=
          match port0 with
          | some 80 => if protocol = "http:" then none else some 80
          | some 443 => if protocol = "https:" then none else some 443
          | p => p
        some ((lowerL hostCs).asString, port)

/-- Model of `new URL(s)`: `none` exactly when the constructor would throw
(the string does not parse as an absolute URL). -/
def parseURL (s : String) : Option URLRec :=
  match splitScheme s.toList with
  | none => none
  | some (schemeCs, rest) =>
    let protocol := ((lowerL schemeCs) ++ [':']).asString
    match rest with
    | '/' :: '/' :: r =>
      let auth := r.takeWhile (fun c => c ≠ '/' && c ≠ '?' && c ≠ '#')
      let path := r.drop auth.length
      match parseAuthority auth protocol with
      | none => none
      | some (host, port) =>
        some ⟨protocol, host, port, if path = [] then "/" else path.asString, true⟩
    | _ => some ⟨protocol, "", none, rest.asString, false⟩

/-- Source: `url.href`: the normalized serialization returned by `validateUrl`. -/
def urlHref (u : URLRec) : String :=
  if u.slashes then
    u.protocol ++ "//" ++ u.hostname ++
      (match u.port with
       | none => ""
       | some p => ":" ++ toString p) ++ u.path
  else u.protocol ++ u.path

/-- Source: `localhostPatterns` from `validateUrl`. -/
def localhostPatterns : List String := ["localhost", "127.0.0.1", "0.0.0.0", "::1", "[::1]"]

/-- Source: `blockedHosts` from `validateUrl`: cloud metadata endpoints. -/
def blockedHosts : List String :=
  ["metadata.google.internal", "metadata.gke.internal", "kubernetes.default.svc"]

/-- One capture group of the regex `^(\d{1,3})\.(\d{1,3})\.(\d{1,3})\.(\d{1,3})$`. -/
def isDigitGroup (g : List Char) : Bool :=
  decide (1 ≤ g.length) && decide (g.length ≤ 3) && g.all Char.isDigit

/-- Source: `hostname.match(ipRegex)` followed by `Number` conversion: the dotted
quad of the hostname when it matches the IPv4-literal regex. -/
def parseIPv4 (host : String) : Option (Nat × Nat × Nat × Nat) :=
  match host.toList.splitOn '.' with
  | [a, b, c, d] =>
    if isDigitGroup a && isDigitGroup b && isDigitGroup c && isDigitGroup d then
      some (charsToNat a, charsToNat b, charsToNat c, charsToNat d)
    else none
  | _ => none

/-- The tail of `validateUrl`: the cloud-metadata deny-list check, then the
normalized `href` on success. -/
def metadataCheck (u : URLRec) (hostname : String) : Except String String :=
  if blockedHosts.contains hostname then
    .error "Access to cloud metadata endpoints is not allowed"
  else .ok (urlHref u)

/-- Source: `validateUrl(urlString)` from scraper.js: `Except.error` models `throw`,
with the exact thrown messages; `Except.ok` carries the returned `url.href`. -/
def validateUrl (urlString : String) : Except String String :=
  match parseURL urlString with
  | none => .error "Invalid URL format"
  | some u =>
    if (["http:", "https:"].contains u.protocol) = false then
      .error "Only HTTP/HTTPS protocols allowed"
    else
      let hostname := (lowerL u.hostname.toList).asString
      if localhostPatterns.contains hostname then
        .error "Access to localhost is not allowed"
      else
        match parseIPv4 hostname with
        | some (a, b, _, _) =>
          if a = 10 then
            .error "Access to private IP range (10.x.x.x) is not allowed"
          else if a = 172 ∧ 16 ≤ b ∧ b ≤ 31 then
            .error "Access to private IP range (172.16-31.x.x) is not allowed"
          else if a = 192 ∧ b = 168 then
            .error "Access to private IP range (192.168.x.x) is not allowed"
          else if a = 169 ∧ b = 254 then
            .error "Access to link-local/metadata IP is not allowed"
          else if a = 127 then
            .error "Access to loopback IP is not allowed"
          else metadataCheck u hostname
        | none => metadataCheck u hostname

/-! ## AI collaborator (`ai` in insforge.js) -/

/-- The character class `[\x00-\x1F\x7F]` stripped by `sanitizeInput`. -/
def isControlChar (c : Char) : Bool := c.toNat ≤ 0x1F || c.toNat = 0x7F

/-- Does the text start with a code-fence marker (three backticks)? -/
def startsTicks (l : List Char) : Bool :=
  l.take 3 == ['\x60', '\x60', '\x60']

/-- The global replacement of three consecutive backticks by `---`
(`.replace` with a code-fence regex, scanning left to right: each match
consumes three characters and emits `---`). -/
def replaceTicks : List Char → List Char
  | '\x60' :: '\x60' :: '\x60' :: rest => '-' :: '-' :: '-' :: replaceTicks rest
  | c :: rest => c :: replaceTicks rest
  | [] => []

/-- Source: `ai.sanitizeInput(text)`: strip control characters, replace code-fence
markers, cap at 2000 characters. -/
def sanitizeInput (text : List Char) : List Char :=
  (replaceTicks (text.filter (fun c => isControlChar c = false))).take 2000

/-- JS `\w` (ASCII word character). -/
def isWordChar (c : Char) : Bool := c.isAlpha || c.isDigit || c = '_'

/-- The CJK range `一-龥` kept by `sanitizeKeywords`. -/
def isCJK (c : Char) : Bool := 0x4e00 ≤ c.toNat && c.toNat ≤ 0x9fa5

/-- The character class `[\w\s一-龥-]` kept by `sanitizeKeywords`. -/
def isKeywordChar (c : Char) : Bool :=
  isWordChar c || c.isWhitespace || isCJK c || c = '-'

/-- Source: `ai.sanitizeKeywords(keywords)`: delete disallowed characters, trim, and
keep only keywords with `0 < length < 50`. -/
def sanitizeKeywords (keywords : List (List Char)) : List (List Char) :=
  (keywords.map (fun k => trimL (k.filter isKeywordChar))).filter
    (fun k => decide (0 < k.length) && decide (k.length < 50))

/-- The `{summary, threat_level, category}` object the engine consumes. -/
structure AIResult where
  summary : String
  threat_level : String
  category : String
deriving Repr, DecidableEq

/-- View of `JSON.parse`'s output on the matched block: a field is `some s`
when present with a string value, `none` when absent or not a string
(`some ""` is a present empty string, which is falsy in JS). -/
structure ParsedAIReply where
  summary : Option String
  threat_level : Option String
  category : Option String
deriving Repr, DecidableEq

/-- Source: `validThreatLevels` from `ai.analyzeSignal`. -/
def validThreatLevels : List String := ["LOW", "MEDIUM", "HIGH", "CRITICAL"]

/-- The output-validation stage of `ai.analyzeSignal` (insforge.js 227-241):
coerce an out-of-enum `threat_level` to `UNKNOWN`, replace a missing/falsy
summary and truncate one longer than 100 characters, default the category. -/
def validateAIResult (r : ParsedAIReply) : AIResult :=
  let tl :=
    match r.threat_level with
    | some t => if validThreatLevels.contains t then t else "UNKNOWN"
    | none => "UNKNOWN"
  let summary :=
    match r.summary with
    | none => "分析結果異常"
    | some s =>
      if s = "" then "分析結果異常"
      else if 100 < s.toList.length then (s.toList.take 100).asString
      else s
  let category :=
    match r.category with
    | none => "UNKNOWN"
    | some c => if c = "" then "UNKNOWN" else c
  ⟨summary, tl, category⟩

/-- The lazy regex `\x7b[\s\S]*?\x7d` over the reply: from the first opening
brace to the first closing brace after it; `none` when no such block exists. -/
def extractJsonBlock (response : List Char) : Option (List Char) :=
  let fromBrace := response.dropWhile (fun c => c ≠ '\x7b')
  match fromBrace with
  | [] => none
  | _ :: rest =>
    if rest.contains '\x7d' then
      some ('\x7b' :: ((rest.takeWhile (fun c => c ≠ '\x7d')) ++ ['\x7d']))
    else none

/-- The reply-processing tail of `ai.analyzeSignal` (insforge.js 212-251):
no parsable JSON block yields the fixed analysis-failed object; a
`JSON.parse` throw lands in the outer catch; otherwise the parsed object is
validated.  `jsonParse` is the oracle for `JSON.parse` (`none` = throw). -/
def analyzeReply (response : List Char)
    (jsonParse : List Char → Option ParsedAIReply) : AIResult :=
  match extractJsonBlock response with
  | none => ⟨"訊號分析失敗", "MEDIUM", "UNKNOWN"⟩
  | some block =>
    match jsonParse block with
    | none => ⟨"分析系統離線", "UNKNOWN", "ERROR"⟩
    | some r => validateAIResult r

instance {ε α : Type} [DecidableEq ε] [DecidableEq α] : DecidableEq (Except ε α) := fun a b =>
  match a, b with
  | .ok x, .ok y =>
    if h : x = y then isTrue (by rw [h]) else isFalse (by intro hc; cases hc; exact h rfl)
  | .error x, .error y =>
    if h : x = y then isTrue (by rw [h]) else isFalse (by intro hc; cases hc; exact h rfl)
  | .ok _, .error _ => isFalse (by intro hc; cases hc)
  | .error _, .ok _ => isFalse (by intro hc; cases hc)

/-! ## Decorative noise (`generateNoise` in scraper.js) -/

/-- Source: `padStart(width, '0')` on a digit run. -/
def padZero (l : List Char) (width : Nat) : List Char :=
  List.replicate (width - l.length) '0' ++ l

/-- Source: `Array.prototype.join` with an arbitrary separator. -/
def joinWith (sep : List Char) : List (List Char) → List Char
  | [] => []
  | [e] => e
  | e :: rest => e ++ sep ++ joinWith sep rest

/-- Source: `generateNoise()` from scraper.js: 1-3 hex-dump lines, each
`0x<6-digit address>: <16 two-digit bytes>`; `rng` is the oracle for the
successive `Math.random()` draws (already scaled to natural numbers). -/
def generateNoise (rng : Nat → Nat) : List Char :=
  let lineCount := rng 0 % 3 + 1
  let lines := (List.range lineCount).map (fun i =>
    let bytes := (List.range 16).map (fun j =>
      padZero (Nat.toDigits 16 (rng (17 * i + j + 1) % 256)) 2)
    let address := padZero (Nat.toDigits 16 (rng (17 * i + 17) % 0x1000000)) 6
    ('0' :: 'x' :: address) ++ (':' :: ' ' :: joinWith [' '] bytes))
  joinWith ['\n'] lines

/-! ## Session scheduler (`server/lib/signal.js`)

The tick body and `forceScan` are embedded as trace-producing functions:
each storage call (`updateLastCheck`, `signals.create`), each push callback
(`onSignal`, `onNoise`), and each external AI completion request is recorded
as an `Event`, in program order.  The HTTP fetch, the SHA-256 digest, the AI
completion and `JSON.parse` are oracle parameters bundled in `TickEnv`. -/

/-- A watch target row as the tick consumes it. -/
structure Target where
  tid : Nat
  name : Option (List Char)
  url : List Char
  keywords : List (List Char)
  last_hash : Option String
deriving Repr, DecidableEq

/-- Source: `target.name || target.url` (a `null` or empty name falls back). -/
def displayName (t : Target) : List Char :=
  match t.name with
  | some n => if n = [] then t.url else n
  | none => t.url

/-- The per-target error line `[ERROR] name - message`. -/
def errorLine (t : Target) (e : List Char) : List Char :=
  "[ERROR] ".toList ++ displayName t ++ " - ".toList ++ e

/-- The `[SCAN] name - Content updated, no signal` noise line. -/
def contentUpdatedMsg (t : Target) : List Char :=
  "[SCAN] ".toList ++ displayName t ++ " - Content updated, no signal".toList

/-- The `[SCAN] name - No change detected` noise line. -/
def noChangeMsg (t : Target) : List Char :=
  "[SCAN] ".toList ++ displayName t ++ " - No change detected".toList

/-- The `[SCANNING] name` line of `forceScan`. -/
def scanningMsg (t : Target) : List Char :=
  "[SCANNING] ".toList ++ displayName t

/-- The `[COMPLETE] name - No signal` line of `forceScan`. -/
def completeMsg (t : Target) : List Char :=
  "[COMPLETE] ".toList ++ displayName t ++ " - No signal".toList

/-- Externally visible actions of one tick / force scan, in program order. -/
inductive Event where
  | updateFingerprint (tid : Nat) (hash : String)
  | aiRequest (content : List Char) (keywords : List (List Char))
  | createSignal (tid : Nat) (keywords : List (List Char)) (content : List Char)
      (aiSummary : Option String) (aiThreat : String) (aiCategory : String)
  | signalEvent (tid : Nat) (keywords : List (List Char)) (content : List Char)
  | noise (msg : List Char)
deriving Repr, DecidableEq

/-- Oracles for the tick's external effects. -/
structure TickEnv where
  fetchO : List Char → Except (List Char) (List Char)
  hashFn : List Char → String
  completionO : List Char → List (List Char) → Except (List Char) (List Char)
  jsonParse : List Char → Option ParsedAIReply
  rng : Nat → Nat

/-- JS `x || 'dflt'` on an optionally-absent string field. -/
def jsOr (v : Option String) (dflt : String) : String :=
  match v with
  | none => dflt
  | some s => if s = "" then dflt else s

/-- Source: `ai.analyzeSignal(content, keywords)` (insforge.js 166-252) with its
externally visible completion request: sanitize both inputs, skip the AI
call when no keyword survives, degrade to the offline object when the
completion call throws, otherwise post-process the reply.  The returned
event list records the completion request actually issued (with exactly the
sanitized payload). -/
def analyzeSignalT (env : TickEnv) (content : List Char) (keywords : List (List Char)) :
    AIResult × List Event :=
  let sanitizedContent := sanitizeInput content
  let sanitizedKeywords := sanitizeKeywords keywords
  if sanitizedKeywords.isEmpty then (⟨"無有效關鍵字", "UNKNOWN", "ERROR"⟩, [])
  else
    let ev := [Event.aiRequest sanitizedContent sanitizedKeywords]
    match env.completionO sanitizedContent sanitizedKeywords with
    | .error _ => (⟨"分析系統離線", "UNKNOWN", "ERROR"⟩, ev)
    | .ok response => (analyzeReply response env.jsonParse, ev)

/-- The per-target body of the tick loop (signal.js 57-115): fetch+analyze,
persist the new fingerprint, then either record+emit a signal (running AI
only when the excerpt is non-empty), or emit the matching noise line; any
fetch error becomes one `[ERROR]` noise line for this target. -/
def processTarget (env : TickEnv) (t : Target) : List Event :=
  match env.fetchO t.url with
  | .error e => [Event.noise (errorLine t e)]
  | .ok text =>
    let result := checkForSignalCore env.hashFn text t.keywords t.last_hash
    Event.updateFingerprint t.tid result.hash ::
    (if result.matched.isEmpty = false then
      let analysis : Option (AIResult × List Event) :=
        if result.content ≠ [] then some (analyzeSignalT env result.content result.matched)
        else none
      let aiAnalysis : Option AIResult := analysis.map (·.1)
      (match analysis with
       | some a => a.2
       | none => []) ++
      [Event.createSignal t.tid result.matched result.content
        (match aiAnalysis with
         | none => none
         | some a => if a.summary = "" then none else some a.summary)
        (jsOr (aiAnalysis.map (·.threat_level)) "UNKNOWN")
        (jsOr (aiAnalysis.map (·.category)) "UNKNOWN"),
       Event.signalEvent t.tid result.matched result.content]
    else if result.changed then
      [Event.noise (contentUpdatedMsg t)]
    else
      [Event.noise (noChangeMsg t)])

/-- One timer tick (signal.js 43-123): with no active targets a single noise
event; otherwise each target sequentially, then one decorative noise
event. -/
def tick (env : TickEnv) (targetList : List Target) : List Event :=
  if targetList.isEmpty then [Event.noise (generateNoise env.rng)]
  else ((targetList.map (processTarget env)).flatten) ++ [Event.noise (generateNoise env.rng)]

/-- The per-target body of `forceScan` (signal.js 185-229): like the tick
body but announcing each target, passing `null` for the stored hash, always
running AI on a match, and reporting `[COMPLETE]` instead of a change/no-
change line. -/
def forceScanTarget (env : TickEnv) (t : Target) : List Event :=
  Event.noise (scanningMsg t) ::
  match env.fetchO t.url with
  | .error e => [Event.noise (errorLine t e)]
  | .ok text =>
    let result := checkForSignalCore env.hashFn text t.keywords none
    Event.updateFingerprint t.tid result.hash ::
    (if result.matched.isEmpty = false then
      let a := analyzeSignalT env result.content result.matched
      a.2 ++
      [Event.createSignal t.tid result.matched result.content
        (if a.1.summary = "" then none else some a.1.summary)
        (jsOr (some a.1.threat_level) "UNKNOWN")
        (jsOr (some a.1.category) "UNKNOWN"),
       Event.signalEvent t.tid result.matched result.content]
    else
      [Event.noise (completeMsg t)])

/-- Source: `forceScan(userId, ...)` (signal.js 179-235): one immediate scan cycle
over the supplied active targets. -/
def forceScan (env : TickEnv) (targetList : List Target) : List Event :=
  Event.noise "[MANUAL SCAN INITIATED]".toList ::
  ((targetList.map (forceScanTarget env)).flatten ++
    [Event.noise "[MANUAL SCAN COMPLETE]".toList])

/-! ### Session registry (`activeSessions` in signal.js)

`activeSessions` is a `Map` from user id to session; sessions own a timer
handle created by `setInterval` and cancelled by `clearInterval`.  The
registry operations are executed sequentially (single-threaded event loop
between awaits), so they are embedded as functions on an explicit state:
the map (as an insertion-ordered association list), the set of live (not
yet cleared) timer handles, and a counter supplying fresh handles. -/

/-- One monitoring session: its id and its `setInterval` handle. -/
structure Session where
  sid : String
  timer : Nat
deriving Repr, DecidableEq

/-- The scheduler's mutable state. -/
structure EngineState where
  sessions : List (String × Session)
  liveTimers : List Nat
  nextTimer : Nat
deriving Repr, DecidableEq

/-- Source: `Map.get`. -/
def regGet (uid : String) (m : List (String × Session)) : Option Session :=
  (m.find? (fun p => p.1 == uid)).map (·.2)

/-- Source: `Map.has`. -/
def regHas (uid : String) (m : List (String × Session)) : Bool :=
  m.any (fun p => p.1 == uid)

/-- Source: `Map.delete`. -/
def regDelete (uid : String) (m : List (String × Session)) : List (String × Session) :=
  m.filter (fun p => p.1 ≠ uid)

/-- Source: `Map.set` (overwrite in place, else append). -/
def regSet (uid : String) (s : Session) (m : List (String × Session)) :
    List (String × Session) :=
  if regHas uid m then m.map (fun p => if p.1 == uid then (uid, s) else p)
  else m ++ [(uid, s)]

/-- Source: `stopMonitoring(userId)` (signal.js 136-158): when a session exists,
mark it stopped, clear its interval, and delete it from the registry;
otherwise do nothing. -/
def stopMonitoring (uid : String) (st : EngineState) : EngineState :=
  match regGet uid st.sessions with
  | none => st
  | some session =>
    { st with
      sessions := regDelete uid st.sessions
      liveTimers := st.liveTimers.filter (fun h => h ≠ session.timer) }

/-- Source: `startMonitoring(userId, ...)` (signal.js 23-129): stop any existing
session first, re-check the registry, then register a fresh session with a
fresh interval handle; returns the new state and the session id handed
back to the caller. -/
def startMonitoring (uid sid : String) (st : EngineState) : EngineState × String :=
  match regGet uid (stopMonitoring uid st).sessions with
  | some existing => (stopMonitoring uid st, existing.sid)
  | none =>
    ({ stopMonitoring uid st with
        sessions := regSet uid ⟨sid, (stopMonitoring uid st).nextTimer⟩
          (stopMonitoring uid st).sessions
        liveTimers := (stopMonitoring uid st).liveTimers ++
          [(stopMonitoring uid st).nextTimer]
        nextTimer := (stopMonitoring uid st).nextTimer + 1 }, sid)

/-- Source: `getStatus(userId)` result `{isActive, sessionId}`. -/
structure MonitorStatus where
  isActive : Bool
  sessionId : Option String
deriving Repr, DecidableEq

/-- Source: `getStatus(userId)` (signal.js 165-171): pure read of the registry
(`session?.id || null` maps an empty id to `null`). -/
def getStatus (uid : String) (st : EngineState) : MonitorStatus :=
  match regGet uid st.sessions with
  | none => ⟨false, none⟩
  | some s => ⟨true, if s.sid = "" then none else some s.sid⟩

/-- Source: `forceScan` never reads or writes `activeSessions` (signal.js 179-235
contains no reference to the registry), so as a state transformer it is the
identity. -/
def forceScanState (st : EngineState) : EngineState := st

/-- Registry operations a caller can issue sequentially. -/
inductive EngineOp where
  | start (uid sid : String)
  | stop (uid : String)
  | force
deriving Repr, DecidableEq

/-- Effect of one operation on the scheduler state. -/
def stepOp (st : EngineState) (op : EngineOp) : EngineState :=
  match op with
  | .start uid sid => (startMonitoring uid sid st).1
  | .stop uid => stopMonitoring uid st
  | .force => forceScanState st

/-- The scheduler state after a sequence of operations from boot. -/
def runOps (ops : List EngineOp) : EngineState :=
  ops.foldl stepOp ⟨[], [], 0⟩

/-! ## Observation helpers used by the specifications -/

/-- Source: `pat` occurs in `l` at position `i`. -/
def matchAt (l pat : List Char) (i : Nat) : Prop :=
  (l.drop i).take pat.length = pat

instance (l pat : List Char) (i : Nat) : Decidable (matchAt l pat i) := by
  unfold matchAt; infer_instance

/-- Scan for a code-fence marker anywhere in the text. -/
def hasTripleTick : List Char → Bool
  | [] => false
  | c :: rest => startsTicks (c :: rest) || hasTripleTick rest

/-- Number of trace events satisfying a predicate. -/
def countEvents (p : Event → Bool) (trace : List Event) : Nat :=
  (trace.filter p).length

/-- The event is an `updateLastCheck` storage call for target `tid`. -/
def isUpdateFpFor (tid : Nat) : Event → Bool
  | .updateFingerprint t _ => t == tid
  | _ => false

/-- The event is a `signals.create` storage call for target `tid`. -/
def isCreateSignalFor (tid : Nat) : Event → Bool
  | .createSignal t _ _ _ _ _ => t == tid
  | _ => false

/-- The event is an `onSignal` push for target `tid`. -/
def isSignalEventFor (tid : Nat) : Event → Bool
  | .signalEvent t _ _ => t == tid
  | _ => false

/-- The event is an external AI completion request. -/
def isAiRequest : Event → Bool
  | .aiRequest _ _ => true
  | _ => false

/-- The event is an `onNoise` push with exactly the message `msg`. -/
def isNoiseMsg (msg : List Char) : Event → Bool
  | .noise m => decide (m = msg)
  | _ => false

/-- The SSRF-blocked error messages `validateUrl` can throw. -/
def ssrfMessages : List String :=
  ["Access to localhost is not allowed",
   "Access to private IP range (10.x.x.x) is not allowed",
   "Access to private IP range (172.16-31.x.x) is not allowed",
   "Access to private IP range (192.168.x.x) is not allowed",
   "Access to link-local/metadata IP is not allowed",
   "Access to loopback IP is not allowed",
   "Access to cloud metadata endpoints is not allowed"]

/-- The dotted quad lies in one of the ranges `validateUrl` blocks:
`10.0.0.0/8`, `172.16.0.0/12`, `192.168.0.0/16`, `169.254.0.0/16`,
`127.0.0.0/8`. -/
def inPrivateRange (q : Nat × Nat × Nat × Nat) : Prop :=
  q.1 = 10 ∨ (q.1 = 172 ∧ 16 ≤ q.2.1 ∧ q.2.1 ≤ 31) ∨ (q.1 = 192 ∧ q.2.1 = 168) ∨
    (q.1 = 169 ∧ q.2.1 = 254) ∨ q.1 = 127

instance (q : Nat × Nat × Nat × Nat) : Decidable (inPrivateRange q) := by
  unfold inPrivateRange; infer_instance

/-- A concrete target used by witness instantiations. -/
def wTarget : Target := ⟨1, none, "https://example.com".toList, ["AI".toList], none⟩

/-- A concrete oracle environment used by witness instantiations: every
fetch returns the same small page, the digest is constant, the AI
completion call fails, `JSON.parse` throws, and the random stream is 0. -/
def wEnv : TickEnv :=
  ⟨fun _ => .ok "AI news today".toList, fun _ => "H1", fun _ _ => .error [],
    fun _ => none, fun _ => 0⟩

/-- A target whose URL times out under `wEnv2`. -/
def wTargetErr : Target := ⟨3, none, "https://dead.example.com".toList, ["AI".toList], none⟩

/-- A target whose page contains no keyword. -/
def wTargetQuiet : Target := ⟨4, none, "https://quiet.example.com".toList, ["AI".toList], none⟩

/-- Oracle environment for the two-target error scenario: the first URL
throws `Timeout`, the second returns a page without the keyword. -/
def wEnv2 : TickEnv :=
  ⟨fun u => if u = "https://dead.example.com".toList then .error "Timeout".toList
    else .ok "quiet page".toList,
   fun _ => "H2", fun _ _ => .error [], fun _ => none, fun _ => 0⟩

/-- A concrete target whose stored fingerprint matches `wEnv.hashFn`. -/
def wTargetSame : Target := ⟨2, none, "https://example.com".toList, ["AI".toList], some "H1"⟩

/-- Concrete content used by the sanitization witness: a control character
followed by a code fence. -/
def wContent : List Char :=
  '\x01' :: ("abc".toList ++ ['\x60', '\x60', '\x60'] ++ "def".toList)

/-- Concrete keyword list used by the sanitization witness: punctuation to
strip, an empty keyword to drop, and an over-long keyword to drop. -/
def wKeywords : List (List Char) :=
  ["AI!".toList, [], List.replicate 60 'a']

/-! ## Sanity examples -/

example : matchKeywords "Breaking: AI-powered robot!".toList
    ["AI".toList, "robot".toList, "ghost".toList] = ["AI".toList, "robot".toList] := by
  decide

example : extractRelevantContent "AI rules".toList ["AI".toList] = "AI rules".toList := by
  decide

example : validateUrl "https://example.com" = .ok "https://example.com/" := by decide

example : validateUrl "http://example.com:8080/api" = .ok "http://example.com:8080/api" := by
  decide

example : validateUrl "not-a-url" = .error "Invalid URL format" := by decide

example : validateUrl "" = .error "Invalid URL format" := by decide

example : validateUrl "ftp://files.example.com" = .error "Only HTTP/HTTPS protocols allowed" := by
  decide

example : validateUrl "javascript:alert(1)" = .error "Only HTTP/HTTPS protocols allowed" := by
  decide

example : validateUrl "http://localhost:3000" = .error "Access to localhost is not allowed" := by
  decide

example : validateUrl "http://[::1]" = .error "Access to localhost is not allowed" := by decide

example :
    validateUrl "http://10.0.0.1" = .error "Access to private IP range (10.x.x.x) is not allowed" := by
  decide

example :
    validateUrl "http://172.31.255.255" =
      .error "Access to private IP range (172.16-31.x.x) is not allowed" := by
  decide

example :
    validateUrl "http://192.168.1.1" =
      .error "Access to private IP range (192.168.x.x) is not allowed" := by
  decide

example : validateUrl "http://127.0.0.2" = .error "Access to loopback IP is not allowed" := by
  decide

example :
    validateUrl "http://169.254.169.254/latest/meta-data/" =
      .error "Access to link-local/metadata IP is not allowed" := by
  decide

example :
    validateUrl "http://metadata.google.internal" =
      .error "Access to cloud metadata endpoints is not allowed" := by
  decide

example : validateUrl "https://example.com/search?q=test" = .ok "https://example.com/search?q=test" := by
  decide

/-! ## Registry lemmas -/

lemma regGet_cons (uid : String) (p : String × Session) (t : List (String × Session)) :
    regGet uid (p :: t) = if p.1 == uid then some p.2 else regGet uid t := by
  cases hb : (p.1 == uid) <;>
    simp [regGet, List.find?_cons_of_pos, List.find?_cons_of_neg, hb]

lemma regGet_regDelete (uid : String) (m : List (String × Session)) :
    regGet uid (regDelete uid m) = none := by
  simp only [regDelete]
  induction m with
  | nil => rfl
  | cons p t ih =>
    rw [List.filter_cons]
    by_cases h : p.1 = uid
    · simpa [h] using ih
    · rw [if_pos (by simp [h]), regGet_cons, if_neg (by simp [h])]
      exact ih

lemma regGet_stop (uid : String) (st : EngineState) :
    regGet uid (stopMonitoring uid st).sessions = none := by
  rcases hg : regGet uid st.sessions with _ | s
  · unfold stopMonitoring
    rw [hg]
    exact hg
  · unfold stopMonitoring
    rw [hg]
    exact regGet_regDelete uid st.sessions

lemma regHas_eq_false_of_regGet_none (uid : String) (m : List (String × Session))
    (h : regGet uid m = none) : regHas uid m = false := by
  induction m with
  | nil => rfl
  | cons p t ih =>
    rw [regGet_cons] at h
    rw [regHas, List.any_cons]
    by_cases hp : p.1 = uid
    · rw [if_pos (by simp [hp])] at h
      simp at h
    · rw [if_neg (by simp [hp])] at h
      have hb : (p.1 == uid) = false := by simp [hp]
      rw [hb, Bool.false_or]
      exact ih h

lemma keys_regDelete_not_mem (uid : String) (m : List (String × Session)) :
    uid ∉ (regDelete uid m).map Prod.fst := by
  intro hmem
  rcases List.mem_map.mp hmem with ⟨p, hp, hfst⟩
  rcases List.mem_filter.mp hp with ⟨-, hpred⟩
  simp only [decide_eq_true_eq] at hpred
  exact hpred hfst

lemma nodup_keys_regDelete (uid : String) (m : List (String × Session))
    (h : (m.map Prod.fst).Nodup) : ((regDelete uid m).map Prod.fst).Nodup :=
  ((List.filter_sublist m).map Prod.fst).nodup h

lemma nodup_keys_stop (uid : String) (st : EngineState)
    (h : (st.sessions.map Prod.fst).Nodup) :
    ((stopMonitoring uid st).sessions.map Prod.fst).Nodup := by
  rcases hg : regGet uid st.sessions with _ | s <;> unfold stopMonitoring <;> rw [hg]
  · exact h
  · exact nodup_keys_regDelete uid st.sessions h

lemma startMonitoring_sessions_eq (uid sid : String) (st : EngineState) :
    (startMonitoring uid sid st).1.sessions =
      (stopMonitoring uid st).sessions ++
        [(uid, ⟨sid, (stopMonitoring uid st).nextTimer⟩)] := by
  unfold startMonitoring
  rw [regGet_stop]
  have hhas :=
    regHas_eq_false_of_regGet_none uid (stopMonitoring uid st).sessions (regGet_stop uid st)
  simp [regSet, hhas]

lemma nodup_keys_step (st : EngineState) (op : EngineOp)
    (h : (st.sessions.map Prod.fst).Nodup) :
    ((stepOp st op).sessions.map Prod.fst).Nodup := by
  cases op with
  | stop uid => exact nodup_keys_stop uid st h
  | force => exact h
  | start uid sid =>
    rw [stepOp, startMonitoring_sessions_eq, List.map_append]
    refine List.Nodup.append (nodup_keys_stop uid st h) (by simp) ?_
    intro a ha hb
    simp only [List.map_cons, List.map_nil, List.mem_singleton] at hb
    subst hb
    rcases hg2 : regGet a st.sessions with _ | s2
    · have e1 : stopMonitoring a st = st := by unfold stopMonitoring; rw [hg2]
      rw [e1] at ha
      have hfalse : regHas a st.sessions = false :=
        regHas_eq_false_of_regGet_none a st.sessions hg2
      rcases List.mem_map.mp ha with ⟨p, hp, hfst⟩
      have := List.any_eq_false.mp hfalse p hp
      simp [beq_iff_eq, hfst] at this
    · have e1 : (stopMonitoring a st).sessions = regDelete a st.sessions := by
        unfold stopMonitoring; rw [hg2]
      rw [e1] at ha
      exact keys_regDelete_not_mem a st.sessions ha

/-- C4: for every sequence of `start`/`stop`/`forceScan` operations run
sequentially from boot, the registry never holds two sessions for one
owner (its key list is duplicate-free); and `startMonitoring` for an owner
that already has a session first fully stops it — after the internal
`stopMonitoring` the owner has no registered session and the old timer
handle is cancelled — and only then appends the freshly created session,
which the registry then reports for that owner. -/
theorem scheduler_session_invariant :
    (∀ ops : List EngineOp, ((runOps ops).sessions.map Prod.fst).Nodup) ∧
    (∀ uid sid st old, regGet uid st.sessions = some old →
      regGet uid (stopMonitoring uid st).sessions = none ∧
      old.timer ∉ (stopMonitoring uid st).liveTimers ∧
      (startMonitoring uid sid st).1.sessions =
        (stopMonitoring uid st).sessions ++
          [(uid, ⟨sid, (stopMonitoring uid st).nextTimer⟩)] ∧
      regGet uid (startMonitoring uid sid st).1.sessions =
        some ⟨sid, (stopMonitoring uid st).nextTimer⟩) := by
  constructor
  · intro ops
    have main : ∀ (l : List EngineOp) (st : EngineState),
        (st.sessions.map Prod.fst).Nodup →
        ((l.foldl stepOp st).sessions.map Prod.fst).Nodup := by
      intro l
      induction l with
      | nil => intro st h; exact h
      | cons op t ih => intro st h; exact ih _ (nodup_keys_step st op h)
    exact main ops ⟨[], [], 0⟩ (by simp)
  · intro uid sid st old hold
    have e1 : stopMonitoring uid st =
        { st with
          sessions := regDelete uid st.sessions
          liveTimers := st.liveTimers.filter (fun h => h ≠ old.timer) } := by
      unfold stopMonitoring; rw [hold]
    refine ⟨regGet_stop uid st, ?_, startMonitoring_sessions_eq uid sid st, ?_⟩
    · rw [e1]
      intro hmem
      have := List.mem_filter.mp hmem
      simp at this
    · rw [startMonitoring_sessions_eq]
      have hnone := regGet_stop uid st
      have hfind : List.find? (fun p => p.1 == uid) (stopMonitoring uid st).sessions = none := by
        rw [regGet] at hnone
        exact Option.map_eq_none'.mp hnone
      rw [regGet, List.find?_append, hfind, Option.none_or]
      simp [List.find?]

/-- Witness for C4 at a concrete operation sequence and state: restarting
owner `"u"` keeps a single registered session and replaces the old one. -/
theorem scheduler_session_invariant_witness :
    (((runOps [.start "u" "s1", .start "u" "s2", .stop "v"]).sessions.map Prod.fst).Nodup) ∧
    (regGet "u" (stopMonitoring "u" ⟨[("u", ⟨"s1", 0⟩)], [0], 1⟩).sessions = none ∧
      (Session.mk "s1" 0).timer ∉ (stopMonitoring "u" ⟨[("u", ⟨"s1", 0⟩)], [0], 1⟩).liveTimers ∧
      (startMonitoring "u" "s2" ⟨[("u", ⟨"s1", 0⟩)], [0], 1⟩).1.sessions =
        (stopMonitoring "u" ⟨[("u", ⟨"s1", 0⟩)], [0], 1⟩).sessions ++
          [("u", ⟨"s2", (stopMonitoring "u" ⟨[("u", ⟨"s1", 0⟩)], [0], 1⟩).nextTimer⟩)] ∧
      regGet "u" (startMonitoring "u" "s2" ⟨[("u", ⟨"s1", 0⟩)], [0], 1⟩).1.sessions =
        some ⟨"s2", (stopMonitoring "u" ⟨[("u", ⟨"s1", 0⟩)], [0], 1⟩).nextTimer⟩) :=
  ⟨scheduler_session_invariant.1 _,
    scheduler_session_invariant.2 "u" "s2" ⟨[("u", ⟨"s1", 0⟩)], [0], 1⟩ ⟨"s1", 0⟩ (by decide)⟩

lemma stop_of_regGet_none (uid : String) (st : EngineState)
    (h : regGet uid st.sessions = none) : stopMonitoring uid st = st := by
  unfold stopMonitoring
  rw [h]

/-- C9: `stopMonitoring` is idempotent — a second consecutive stop leaves
the scheduler state unchanged — and `getStatus` right after a stop reports
`active: false` with no session id. -/
theorem stopMonitoring_idempotent (uid : String) (st : EngineState) :
    stopMonitoring uid (stopMonitoring uid st) = stopMonitoring uid st ∧
    getStatus uid (stopMonitoring uid st) = ⟨false, none⟩ := by
  have h := regGet_stop uid st
  constructor
  · exact stop_of_regGet_none uid (stopMonitoring uid st) h
  · unfold getStatus
    rw [h]

/-- C8: `forceScan` leaves the live-session registry untouched (its body
never references `activeSessions`, so as a state transformer it is the
identity), announces and scans every supplied target in its single
immediate cycle, and passes `null` for the stored fingerprint so that every
successfully fetched target is treated as changed. -/
theorem forceScan_spec (env : TickEnv) (st : EngineState) (ts : List Target) :
    forceScanState st = st ∧
    (∀ t ∈ ts, Event.noise (scanningMsg t) ∈ forceScan env ts) ∧
    (∀ t ∈ ts, ∀ text, env.fetchO t.url = .ok text →
      (checkForSignalCore env.hashFn text t.keywords none).changed = true) := by
  refine ⟨rfl, ?_, ?_⟩
  · intro t ht
    unfold forceScan
    refine List.mem_cons_of_mem _ (List.mem_append_left _ ?_)
    refine List.mem_flatten.mpr ⟨forceScanTarget env t, List.mem_map_of_mem _ ht, ?_⟩
    unfold forceScanTarget
    exact List.mem_cons_self _ _
  · intro t ht text hfetch
    unfold checkForSignalCore
    simp only []
    split <;> simp_all
    split <;> rfl

/-- Witness for C8 at a concrete environment, state, and target list. -/
theorem forceScan_spec_witness :
    Event.noise (scanningMsg wTarget) ∈ forceScan wEnv [wTarget] ∧
    (checkForSignalCore wEnv.hashFn "AI news today".toList wTarget.keywords none).changed
      = true := by
  obtain ⟨-, h2, h3⟩ := forceScan_spec wEnv ⟨[], [], 0⟩ [wTarget]
  exact ⟨h2 wTarget (List.mem_singleton.mpr rfl),
    h3 wTarget (List.mem_singleton.mpr rfl) _ rfl⟩

/-- C10: when the newly computed fingerprint equals the stored one, the
scan outcome is `{changed: false, matches: [], content: ""}` — keyword
matching is skipped — and the tick's per-target work is only the
fingerprint persist plus the no-change noise line: no AI request, no
`signals.create` call, no signal event, even if the page text contains the
keywords. -/
theorem unchanged_fingerprint_no_signal (env : TickEnv) (t : Target) (text : List Char)
    (hfetch : env.fetchO t.url = .ok text)
    (hsame : t.last_hash = some (env.hashFn text)) :
    checkForSignalCore env.hashFn text t.keywords t.last_hash =
      ⟨false, [], [], env.hashFn text⟩ ∧
    processTarget env t =
      [Event.updateFingerprint t.tid (env.hashFn text), Event.noise (noChangeMsg t)] ∧
    countEvents isAiRequest (processTarget env t) = 0 ∧
    countEvents (isCreateSignalFor t.tid) (processTarget env t) = 0 ∧
    countEvents (isSignalEventFor t.tid) (processTarget env t) = 0 := by
  have hres : checkForSignalCore env.hashFn text t.keywords t.last_hash =
      ⟨false, [], [], env.hashFn text⟩ := by
    rw [hsame]
    unfold checkForSignalCore
    simp
  have hpt : processTarget env t =
      [Event.updateFingerprint t.tid (env.hashFn text), Event.noise (noChangeMsg t)] := by
    unfold processTarget
    rw [hfetch]
    dsimp only
    rw [hres]
    simp [List.isEmpty]
  refine ⟨hres, hpt, ?_, ?_, ?_⟩ <;> rw [hpt] <;> rfl

/-- Witness for C10: the fetched page contains the keyword `AI`, yet with
an unchanged fingerprint nothing beyond the persist and a no-change line
happens. -/
theorem unchanged_fingerprint_no_signal_witness :
    checkForSignalCore wEnv.hashFn "AI news today".toList wTargetSame.keywords
        wTargetSame.last_hash =
      ⟨false, [], [], wEnv.hashFn "AI news today".toList⟩ ∧
    processTarget wEnv wTargetSame =
      [Event.updateFingerprint wTargetSame.tid (wEnv.hashFn "AI news today".toList),
       Event.noise (noChangeMsg wTargetSame)] ∧
    countEvents isAiRequest (processTarget wEnv wTargetSame) = 0 ∧
    countEvents (isCreateSignalFor wTargetSame.tid) (processTarget wEnv wTargetSame) = 0 ∧
    countEvents (isSignalEventFor wTargetSame.tid) (processTarget wEnv wTargetSame) = 0 :=
  unchanged_fingerprint_no_signal wEnv wTargetSame "AI news today".toList rfl rfl

lemma analyzeSignalT_events (env : TickEnv) (c : List Char) (k : List (List Char)) :
    (analyzeSignalT env c k).2 = [] ∨
    (analyzeSignalT env c k).2 = [Event.aiRequest (sanitizeInput c) (sanitizeKeywords k)] := by
  unfold analyzeSignalT
  by_cases h : (sanitizeKeywords k).isEmpty
  · simp [h]
  · rcases henv : env.completionO (sanitizeInput c) (sanitizeKeywords k) with e | resp <;>
      simp [h, henv]

lemma processTarget_matched (env : TickEnv) (t : Target) (text : List Char)
    (hfetch : env.fetchO t.url = .ok text)
    (hm : (checkForSignalCore env.hashFn text t.keywords t.last_hash).matched ≠ []) :
    ∃ aiEvs aiS aiT aiC,
      (aiEvs = ([] : List Event) ∨ ∃ c k, aiEvs = [Event.aiRequest c k]) ∧
      processTarget env t =
        Event.updateFingerprint t.tid
            (checkForSignalCore env.hashFn text t.keywords t.last_hash).hash ::
          (aiEvs ++
            [Event.createSignal t.tid
                (checkForSignalCore env.hashFn text t.keywords t.last_hash).matched
                (checkForSignalCore env.hashFn text t.keywords t.last_hash).content aiS aiT aiC,
              Event.signalEvent t.tid
                (checkForSignalCore env.hashFn text t.keywords t.last_hash).matched
                (checkForSignalCore env.hashFn text t.keywords t.last_hash).content]) := by
  have hie : (checkForSignalCore env.hashFn text t.keywords t.last_hash).matched.isEmpty
      = false := by
    simpa [List.isEmpty_eq_false] using hm
  unfold processTarget
  rw [hfetch]
  dsimp only
  rw [hie]
  set R := checkForSignalCore env.hashFn text t.keywords t.last_hash with hR
  by_cases hc : R.content ≠ []
  · refine ⟨(analyzeSignalT env R.content R.matched).2,
      (if (analyzeSignalT env R.content R.matched).1.summary = "" then none
        else some (analyzeSignalT env R.content R.matched).1.summary),
      jsOr (some (analyzeSignalT env R.content R.matched).1.threat_level) "UNKNOWN",
      jsOr (some (analyzeSignalT env R.content R.matched).1.category) "UNKNOWN", ?_, ?_⟩
    · rcases analyzeSignalT_events env R.content R.matched with he | he
      · exact Or.inl he
      · exact Or.inr ⟨_, _, he⟩
    · simp [hc]
  · refine ⟨[], none, jsOr none "UNKNOWN", jsOr none "UNKNOWN", Or.inl rfl, ?_⟩
    simp [hc]

lemma countCreate_processTarget (env : TickEnv) (t : Target) (text : List Char)
    (hfetch : env.fetchO t.url = .ok text)
    (hm : (checkForSignalCore env.hashFn text t.keywords t.last_hash).matched ≠ []) :
    countEvents (isCreateSignalFor t.tid) (processTarget env t) = 1 := by
  obtain ⟨aiEvs, aiS, aiT, aiC, hcase, htrace⟩ := processTarget_matched env t text hfetch hm
  rw [htrace]
  rcases hcase with h | ⟨c, k, h⟩ <;> subst h <;>
    simp [countEvents, List.filter_cons, List.filter_append, isCreateSignalFor]

/-- C1 counterexample: an AI reply with no parsable JSON block does NOT
degrade the threat level to `UNKNOWN` — `ai.analyzeSignal` returns the
fixed analysis-failed object whose `threat_level` is `MEDIUM`. -/
theorem analyzeReply_no_json_not_unknown :
    analyzeReply "System offline, try again later.".toList (fun _ => none) =
      ⟨"訊號分析失敗", "MEDIUM", "UNKNOWN"⟩ ∧
    ("MEDIUM" : String) ≠ "UNKNOWN" := by
  constructor
  · decide
  · decide

/-- C1 (amended): a malformed AI reply degrades to fixed safe fields and
never blocks signal recording — but the no-parsable-JSON case yields
`threat_level = MEDIUM` (not `UNKNOWN`): a reply without a JSON block gives
`{訊號分析失敗, MEDIUM, UNKNOWN}`; a reply whose extracted block fails
`JSON.parse` gives `{分析系統離線, UNKNOWN, ERROR}`; a parsed object's
out-of-enum `threat_level` is coerced to `UNKNOWN`; the validated summary
never exceeds 100 characters and an oversized one is truncated to its first
100 characters; and whenever a tick has matched keywords, storage receives
exactly one `signals.create` call regardless of the AI outcome. -/
theorem analyzeSignal_degradation (response : List Char)
    (jsonParse : List Char → Option ParsedAIReply) (r : ParsedAIReply)
    (env : TickEnv) (t : Target) (text : List Char) :
    (extractJsonBlock response = none →
      analyzeReply response jsonParse = ⟨"訊號分析失敗", "MEDIUM", "UNKNOWN"⟩) ∧
    (∀ block, extractJsonBlock response = some block → jsonParse block = none →
      analyzeReply response jsonParse = ⟨"分析系統離線", "UNKNOWN", "ERROR"⟩) ∧
    (validateAIResult r).threat_level ∈ "UNKNOWN" :: validThreatLevels ∧
    (∀ tl, r.threat_level = some tl → tl ∉ validThreatLevels →
      (validateAIResult r).threat_level = "UNKNOWN") ∧
    (validateAIResult r).summary.toList.length ≤ 100 ∧
    (∀ s, r.summary = some s → 100 < s.toList.length →
      (validateAIResult r).summary = (s.toList.take 100).asString) ∧
    (env.fetchO t.url = .ok text →
      (checkForSignalCore env.hashFn text t.keywords t.last_hash).matched ≠ [] →
      countEvents (isCreateSignalFor t.tid) (processTarget env t) = 1) := by
  refine ⟨?_, ?_, ?_, ?_, ?_, ?_, ?_⟩
  · intro h
    unfold analyzeReply
    rw [h]
  · intro block hb hp
    unfold analyzeReply
    rw [hb]
    dsimp only
    rw [hp]
  · unfold validateAIResult
    dsimp only
    rcases htl : r.threat_level with _ | tl
    · simp
    · dsimp only
      by_cases h : validThreatLevels.contains tl = true
      · rw [if_pos h]
        exact List.mem_cons_of_mem _ (List.mem_of_elem_eq_true h)
      · rw [if_neg h]
        exact List.mem_cons_self _ _
  · intro tl htl hmem
    unfold validateAIResult
    dsimp only
    rw [htl]
    dsimp only
    have hc : ¬ (validThreatLevels.contains tl = true) := fun hcc =>
      hmem (List.mem_of_elem_eq_true hcc)
    rw [if_neg hc]
  · unfold validateAIResult
    dsimp only
    rcases hs : r.summary with _ | s
    · decide
    · dsimp only
      by_cases h0 : s = ""
      · rw [if_pos h0]
        decide
      · rw [if_neg h0]
        by_cases hlen : 100 < s.toList.length
        · rw [if_pos hlen]
          have hasl : ((s.toList.take 100).asString).toList = s.toList.take 100 := rfl
          rw [hasl, List.length_take]
          omega
        · rw [if_neg hlen]
          omega
  · intro s hs hlen
    unfold validateAIResult
    dsimp only
    rw [hs]
    dsimp only
    have h0 : ¬ (s = "") := by
      intro hc
      rw [hc] at hlen
      simp at hlen
    rw [if_neg h0, if_pos hlen]
  · intro hfetch hm
    exact countCreate_processTarget env t text hfetch hm

/-- Witness for C1's amended theorem at concrete inputs: a reply with no
JSON block, a parse-throwing block, an out-of-enum threat level with an
oversized summary, and a tick whose target matched. -/
theorem analyzeSignal_degradation_witness :
    analyzeReply "no block".toList (fun _ => none) =
      ⟨"訊號分析失敗", "MEDIUM", "UNKNOWN"⟩ ∧
    analyzeReply "\x7bbad\x7d".toList (fun _ => none) =
      ⟨"分析系統離線", "UNKNOWN", "ERROR"⟩ ∧
    (validateAIResult ⟨some (String.mk (List.replicate 150 'a')), some "SEVERE", none⟩).threat_level
      = "UNKNOWN" ∧
    (validateAIResult ⟨some (String.mk (List.replicate 150 'a')), some "SEVERE", none⟩).summary
      = ((List.replicate 150 'a').take 100).asString ∧
    countEvents (isCreateSignalFor wTarget.tid) (processTarget wEnv wTarget) = 1 := by
  obtain ⟨h1, -, -, -, -, -, -⟩ :=
    analyzeSignal_degradation "no block".toList (fun _ => none)
      ⟨some (String.mk (List.replicate 150 'a')), some "SEVERE", none⟩ wEnv wTarget
      "AI news today".toList
  obtain ⟨-, h2, -, h4, -, h6, h7⟩ :=
    analyzeSignal_degradation "\x7bbad\x7d".toList (fun _ => none)
      ⟨some (String.mk (List.replicate 150 'a')), some "SEVERE", none⟩ wEnv wTarget
      "AI news today".toList
  refine ⟨h1 (by decide), h2 "\x7bbad\x7d".toList (by decide) rfl, ?_, ?_, ?_⟩
  · exact h4 "SEVERE" rfl (by decide)
  · exact h6 (String.mk (List.replicate 150 'a')) rfl (by simp)
  · refine h7 rfl ?_
    decide

/-! ## Occurrence-search lemmas -/

lemma isPrefixOf_iff_take (pat l : List Char) :
    pat.isPrefixOf l = true ↔ l.take pat.length = pat := by
  rw [ List.isPrefixOf_iff_prefix]
  constructor
  · intro h
    exact (List.prefix_iff_eq_take.mp h).symm
  · intro h
    rw [List.prefix_iff_eq_take]
    exact h.symm

lemma firstMatch_sound (pat : List Char) :
    ∀ (hay : List Char) (i : Nat), firstMatch hay pat = some i → matchAt hay pat i := by
  intro hay
  induction hay with
  | nil =>
    intro i h
    unfold firstMatch at h
    by_cases hp : pat.isPrefixOf ([] : List Char) = true
    · rw [if_pos hp] at h
      cases h
      exact (isPrefixOf_iff_take pat []).mp hp
    · rw [if_neg hp] at h
      cases h
  | cons c t ih =>
    intro i h
    unfold firstMatch at h
    by_cases hp : pat.isPrefixOf (c :: t) = true
    · rw [if_pos hp] at h
      cases h
      exact (isPrefixOf_iff_take pat (c :: t)).mp hp
    · rw [if_neg hp] at h
      rcases Option.map_eq_some'.mp h with ⟨j, hj, hji⟩
      subst hji
      have := ih j hj
      unfold matchAt at this ⊢
      simpa [List.drop_succ_cons] using this

lemma firstMatch_minimal (pat : List Char) :
    ∀ (hay : List Char) (i : Nat), firstMatch hay pat = some i →
      ∀ j < i, ¬ matchAt hay pat j := by
  intro hay
  induction hay with
  | nil =>
    intro i h j hj
    unfold firstMatch at h
    by_cases hp : pat.isPrefixOf ([] : List Char) = true
    · rw [if_pos hp] at h
      cases h
      omega
    · rw [if_neg hp] at h
      cases h
  | cons c t ih =>
    intro i h j hj
    unfold firstMatch at h
    by_cases hp : pat.isPrefixOf (c :: t) = true
    · rw [if_pos hp] at h
      cases h
      omega
    · rw [if_neg hp] at h
      rcases Option.map_eq_some'.mp h with ⟨i2, hi2, hji⟩
      subst hji
      rcases j with _ | j2
      · intro hmatch
        exact hp ((isPrefixOf_iff_take pat (c :: t)).mpr hmatch)
      · intro hmatch
        refine ih i2 hi2 j2 (by omega) ?_
        unfold matchAt at hmatch ⊢
        simpa [List.drop_succ_cons] using hmatch

lemma indexOfFrom_sound (hay pat : List Char) (start i : Nat)
    (h : indexOfFrom hay pat start = some i) : start ≤ i ∧ matchAt hay pat i := by
  rcases Option.map_eq_some'.mp h with ⟨m, hm, hmi⟩
  subst hmi
  refine ⟨Nat.le_add_left start m, ?_⟩
  have := firstMatch_sound pat (hay.drop start) m hm
  unfold matchAt at this ⊢
  rw [List.drop_drop] at this
  rw [Nat.add_comm m start]
  exact this

lemma findOccs_length (l k : List Char) (start fuel : Nat) :
    (findOccs l k start fuel).length ≤ fuel := by
  induction fuel generalizing start with
  | zero => simp [findOccs]
  | succ f ih =>
    unfold findOccs
    rcases h : indexOfFrom l k start with _ | i
    · simp
    · simpa using ih (i + k.length)

lemma findOccs_ge (l k : List Char) (start fuel : Nat) :
    ∀ i ∈ findOccs l k start fuel, start ≤ i := by
  induction fuel generalizing start with
  | zero => simp [findOccs]
  | succ f ih =>
    intro i hi
    unfold findOccs at hi
    rcases h : indexOfFrom l k start with _ | m
    · rw [h] at hi
      simp at hi
    · rw [h] at hi
      rcases List.mem_cons.mp hi with he | ht
      · subst he
        exact (indexOfFrom_sound l k start i h).1
      · have := ih (m + k.length) i ht
        have hms := (indexOfFrom_sound l k start m h).1
        omega

lemma findOccs_chain (l k : List Char) (start fuel : Nat) :
    List.Chain' (· ≤ ·) (findOccs l k start fuel) := by
  induction fuel generalizing start with
  | zero => simp [findOccs]
  | succ f ih =>
    unfold findOccs
    rcases h : indexOfFrom l k start with _ | m
    · simp
    · rw [List.chain'_cons']
      refine ⟨?_, ih (m + k.length)⟩
      intro y hy
      have := findOccs_ge l k (m + k.length) f y (List.mem_of_mem_head? hy)
      omega

lemma findOccs_sound (l k : List Char) (start fuel : Nat) :
    ∀ i ∈ findOccs l k start fuel, matchAt l k i := by
  induction fuel generalizing start with
  | zero => simp [findOccs]
  | succ f ih =>
    intro i hi
    unfold findOccs at hi
    rcases h : indexOfFrom l k start with _ | m
    · rw [h] at hi
      simp at hi
    · rw [h] at hi
      rcases List.mem_cons.mp hi with he | ht
      · subst he
        exact (indexOfFrom_sound l k start i h).2
      · exact ih (m + k.length) i ht

lemma occurrenceExcerpt_eq (text kw : List Char) (idx : Nat) :
    occurrenceExcerpt text kw idx =
      (if CONTEXT_RADIUS < idx then dots else []) ++
        trimL ((text.drop (idx - CONTEXT_RADIUS)).take
          (min text.length (idx + kw.length + CONTEXT_RADIUS) - (idx - CONTEXT_RADIUS))) ++
        (if idx + kw.length + CONTEXT_RADIUS < text.length then dots else []) := by
  unfold occurrenceExcerpt
  dsimp only
  have h2 : (min text.length (idx + kw.length + CONTEXT_RADIUS) < text.length) ↔
      (idx + kw.length + CONTEXT_RADIUS < text.length) := by omega
  simp only [Nat.sub_pos_iff_lt, h2, List.append_assoc]

/-- C3 counterexample: with text `"AI rules"` and matched keyword `"AI"`,
the single occurrence's 200-character window is clipped by the text
boundary on both sides (the text starts at the occurrence and ends well
inside the window), yet the produced excerpt carries no ellipsis at either
end — the opposite of "ellipsis exactly when the window was clipped". -/
theorem buildExcerpt_ellipsis_counterexample :
    findOccs (lowerL "AI rules".toList) (lowerL "AI".toList) 0 MAX_OCCURRENCES = [0] ∧
    0 < CONTEXT_RADIUS ∧
    "AI rules".toList.length < 0 + "AI".toList.length + CONTEXT_RADIUS ∧
    extractRelevantContent "AI rules".toList ["AI".toList] = "AI rules".toList ∧
    (extractRelevantContent "AI rules".toList ["AI".toList]).take 3 ≠ dots ∧
    (extractRelevantContent "AI rules".toList ["AI".toList]).reverse.take 3 ≠ dots := by
  refine ⟨by decide, by decide, by decide, by decide, by decide, by decide⟩

/-- C3 (amended): `buildExcerpt` output never exceeds 3000 characters; per
keyword it takes at most 3 occurrences, in nondecreasing position order
starting from the earliest case-insensitive match, each a genuine
occurrence; and around each occurrence the excerpt is the trimmed
symmetric 200-character window with `'...'` prepended exactly when text
remains BEFORE the window (`200 < idx`) and appended exactly when text
remains AFTER the window (`idx + |kw| + 200 < |text|`) — i.e. exactly when
the window was NOT clipped by the text boundary on that side. -/
theorem buildExcerpt_spec (text : List Char) (kws : List (List Char)) :
    (extractRelevantContent text kws).length ≤ MAX_EXCERPT_LENGTH ∧
    ∀ kw ∈ kws,
      (findOccs (lowerL text) (lowerL kw) 0 MAX_OCCURRENCES).length ≤ MAX_OCCURRENCES ∧
      List.Chain' (· ≤ ·) (findOccs (lowerL text) (lowerL kw) 0 MAX_OCCURRENCES) ∧
      (∀ i, firstMatch (lowerL text) (lowerL kw) = some i →
        ∀ j < i, ¬ matchAt (lowerL text) (lowerL kw) j) ∧
      ∀ idx ∈ findOccs (lowerL text) (lowerL kw) 0 MAX_OCCURRENCES,
        matchAt (lowerL text) (lowerL kw) idx ∧
        occurrenceExcerpt text kw idx =
          (if CONTEXT_RADIUS < idx then dots else []) ++
            trimL ((text.drop (idx - CONTEXT_RADIUS)).take
              (min text.length (idx + kw.length + CONTEXT_RADIUS) - (idx - CONTEXT_RADIUS))) ++
            (if idx + kw.length + CONTEXT_RADIUS < text.length then dots else []) := by
  constructor
  · unfold extractRelevantContent
    dsimp only
    rw [List.length_take]
    exact Nat.min_le_left _ _
  · intro kw _
    refine ⟨findOccs_length _ _ 0 _, findOccs_chain _ _ 0 _,
      firstMatch_minimal _ _, ?_⟩
    intro idx hidx
    exact ⟨findOccs_sound _ _ 0 _ idx hidx, occurrenceExcerpt_eq text kw idx⟩

/-- Witness for C3's amended theorem at the concrete counterexample input:
occurrence at position 0, genuine match, no ellipsis on either side
because no text remains outside the window. -/
theorem buildExcerpt_spec_witness :
    (extractRelevantContent "AI rules".toList ["AI".toList]).length ≤ MAX_EXCERPT_LENGTH ∧
    matchAt (lowerL "AI rules".toList) (lowerL "AI".toList) 0 ∧
    occurrenceExcerpt "AI rules".toList "AI".toList 0 =
      (if CONTEXT_RADIUS < 0 then dots else []) ++
        trimL (("AI rules".toList.drop (0 - CONTEXT_RADIUS)).take
          (min "AI rules".toList.length (0 + "AI".toList.length + CONTEXT_RADIUS) -
            (0 - CONTEXT_RADIUS))) ++
        (if 0 + "AI".toList.length + CONTEXT_RADIUS < "AI rules".toList.length then dots
          else []) := by
  obtain ⟨h1, h2⟩ := buildExcerpt_spec "AI rules".toList ["AI".toList]
  obtain ⟨-, -, -, h4⟩ := h2 "AI".toList (List.mem_singleton.mpr rfl)
  obtain ⟨hm, he⟩ := h4 0 (by decide)
  exact ⟨h1, hm, he⟩

/-! ## Sanitizer lemmas -/

lemma replaceTicks_nil : replaceTicks [] = [] := rfl

lemma startsTicks_iff (l : List Char) :
    startsTicks l = true ↔ l.take 3 = ['\x60', '\x60', '\x60'] := by
  unfold startsTicks
  exact beq_iff_eq

lemma startsTicks_cons_ne (c : Char) (l : List Char) (h : ¬ c = '\x60') :
    startsTicks (c :: l) = false := by
  rw [Bool.eq_false_iff]
  intro hs
  have ht := (startsTicks_iff _).mp hs
  rw [List.take_succ_cons] at ht
  injection ht with h1 h2
  exact h h1

lemma startsTicks_tick_iff (l : List Char) :
    startsTicks ('\x60' :: l) = true ↔ l.take 2 = ['\x60', '\x60'] := by
  rw [startsTicks_iff, List.take_succ_cons]
  constructor
  · intro h
    have ht := congrArg List.tail h
    simpa using ht
  · intro h
    rw [h]

lemma replaceTicks_cons_pos (c : Char) (l : List Char) (h : startsTicks (c :: l) = true) :
    replaceTicks (c :: l) = '-' :: '-' :: '-' :: replaceTicks (l.drop 2) := by
  have ht := (startsTicks_iff _).mp h
  rw [List.take_succ_cons] at ht
  injection ht with h1 h2
  subst h1
  have hl : l = '\x60' :: '\x60' :: l.drop 2 := by
    conv_lhs => rw [← List.take_append_drop 2 l]
    rw [h2]
    rfl
  conv_lhs => rw [hl]
  rfl

lemma replaceTicks_cons_neg (c : Char) (l : List Char) (h : startsTicks (c :: l) = false) :
    replaceTicks (c :: l) = c :: replaceTicks l := by
  conv_lhs => rw [replaceTicks.eq_def]
  split
  · rename_i rest heq
    exfalso
    rw [Bool.eq_false_iff] at h
    apply h
    rw [startsTicks_iff, heq]
    rfl
  · rename_i c2 rest2 hne heq
    injection heq with e1 e2
    rw [e1, e2]
  · rename_i heq
    simp at heq

lemma replaceTicks_take1_ne_tick (l : List Char) (h : l.take 1 ≠ ['\x60']) :
    (replaceTicks l).take 1 ≠ ['\x60'] := by
  cases l with
  | nil => simp [replaceTicks_nil]
  | cons e r3 =>
    have he : ¬ e = '\x60' := by
      intro hc
      subst hc
      simp [List.take_succ_cons] at h
    rw [replaceTicks_cons_neg e r3 (startsTicks_cons_ne e r3 he)]
    rw [List.take_succ_cons]
    intro hc
    injection hc with h1 h2
    exact he h1

lemma replaceTicks_take2_ne_ticks (l : List Char) (h : l.take 2 ≠ ['\x60', '\x60']) :
    (replaceTicks l).take 2 ≠ ['\x60', '\x60'] := by
  cases l with
  | nil => simp [replaceTicks_nil]
  | cons d r2 =>
    by_cases hd : d = '\x60'
    · subst hd
      have h1 : r2.take 1 ≠ ['\x60'] := by
        intro hc
        apply h
        rw [List.take_succ_cons, hc]
      have hs : startsTicks ('\x60' :: r2) = false := by
        rw [Bool.eq_false_iff]
        intro hstrue
        have h22 := (startsTicks_tick_iff r2).mp hstrue
        apply h1
        have e1 : (r2.take 2).take 1 = r2.take 1 := by
          rw [List.take_take]
          norm_num
        rw [← e1, h22]
        rfl
      rw [replaceTicks_cons_neg _ _ hs, List.take_succ_cons]
      intro hc
      injection hc with ha hb
      exact replaceTicks_take1_ne_tick r2 h1 hb
    · rw [replaceTicks_cons_neg d r2 (startsTicks_cons_ne d r2 hd), List.take_succ_cons]
      intro hc
      injection hc with ha hb
      exact hd ha

lemma replaceTicks_no_triple : ∀ (n : Nat) (l : List Char), l.length ≤ n →
    hasTripleTick (replaceTicks l) = false := by
  intro n
  induction n with
  | zero =>
    intro l hl
    have : l = [] := List.eq_nil_of_length_eq_zero (Nat.le_zero.mp hl)
    subst this
    rw [replaceTicks_nil]
    rfl
  | succ n ih =>
    intro l hl
    cases l with
    | nil =>
      rw [replaceTicks_nil]
      rfl
    | cons c rest =>
      by_cases hs : startsTicks (c :: rest) = true
      · rw [replaceTicks_cons_pos c rest hs]
        have hR : hasTripleTick (replaceTicks (rest.drop 2)) = false := by
          apply ih
          rw [List.length_drop]
          simp only [List.length_cons] at hl
          omega
        rw [hasTripleTick, startsTicks_cons_ne _ _ (by decide), Bool.false_or]
        rw [hasTripleTick, startsTicks_cons_ne _ _ (by decide), Bool.false_or]
        rw [hasTripleTick, startsTicks_cons_ne _ _ (by decide), Bool.false_or]
        exact hR
      · rw [Bool.not_eq_true] at hs
        rw [replaceTicks_cons_neg c rest hs]
        have hrest : hasTripleTick (replaceTicks rest) = false := by
          apply ih
          simp only [List.length_cons] at hl
          omega
        rw [hasTripleTick, hrest, Bool.or_false]
        by_cases hc : c = '\x60'
        · subst hc
          have h2 : rest.take 2 ≠ ['\x60', '\x60'] := by
            intro hcc
            rw [Bool.eq_false_iff] at hs
            exact hs ((startsTicks_tick_iff rest).mpr hcc)
          have h3 := replaceTicks_take2_ne_ticks rest h2
          rw [Bool.eq_false_iff]
          intro hstrue
          exact h3 ((startsTicks_tick_iff _).mp hstrue)
        · exact startsTicks_cons_ne _ _ hc

lemma hasTripleTick_take (l : List Char) (n : Nat) (h : hasTripleTick l = false) :
    hasTripleTick (l.take n) = false := by
  induction l generalizing n with
  | nil => simpa using h
  | cons c rest ih =>
    cases n with
    | zero => rfl
    | succ m =>
      rw [List.take_succ_cons]
      rw [hasTripleTick] at h
      rcases Bool.or_eq_false_iff.mp h with ⟨h1, h2⟩
      rw [hasTripleTick, ih m h2, Bool.or_false]
      rw [Bool.eq_false_iff] at h1 ⊢
      intro hstrue
      apply h1
      rw [startsTicks_iff] at hstrue ⊢
      rw [List.take_succ_cons] at hstrue ⊢
      injection hstrue with e1 e2
      have hmin : min 2 m = 2 := by
        have hlen := congrArg List.length e2
        simp only [List.take_take, List.length_take, List.length_cons,
          List.length_nil] at hlen
        omega
      rw [List.take_take, hmin] at e2
      rw [e1, e2]

lemma mem_replaceTicks : ∀ (n : Nat) (l : List Char), l.length ≤ n →
    ∀ c ∈ replaceTicks l, c ∈ l ∨ c = '-' := by
  intro n
  induction n with
  | zero =>
    intro l hl
    have : l = [] := List.eq_nil_of_length_eq_zero (Nat.le_zero.mp hl)
    subst this
    rw [replaceTicks_nil]
    simp
  | succ n ih =>
    intro l hl c hc
    cases l with
    | nil =>
      rw [replaceTicks_nil] at hc
      simp at hc
    | cons d rest =>
      by_cases hs : startsTicks (d :: rest) = true
      · rw [replaceTicks_cons_pos d rest hs] at hc
        simp only [List.mem_cons] at hc
        rcases hc with hc | hc | hc | hc
        · exact Or.inr hc
        · exact Or.inr hc
        · exact Or.inr hc
        · rcases ih (rest.drop 2)
              (by rw [List.length_drop]; simp only [List.length_cons] at hl; omega) c hc with
            hm | hm
          · exact Or.inl (List.mem_cons_of_mem d (List.mem_of_mem_drop hm))
          · exact Or.inr hm
      · rw [Bool.not_eq_true] at hs
        rw [replaceTicks_cons_neg d rest hs] at hc
        simp only [List.mem_cons] at hc
        rcases hc with hc | hc
        · exact Or.inl (by rw [hc]; exact List.mem_cons_self d rest)
        · rcases ih rest (by simp only [List.length_cons] at hl; omega) c hc with hm | hm
          · exact Or.inl (List.mem_cons_of_mem d hm)
          · exact Or.inr hm

lemma mem_trimL (l : List Char) : ∀ c ∈ trimL l, c ∈ l := by
  intro c hc
  unfold trimL at hc
  rw [List.mem_reverse] at hc
  have hc2 := (List.dropWhile_sublist _).subset hc
  rw [List.mem_reverse] at hc2
  exact (List.dropWhile_sublist _).subset hc2

/-- C7: everything handed to the external AI summarizer is sanitized
first — the completion request recorded by `analyzeSignalT` carries exactly
`sanitizeInput content` and `sanitizeKeywords keywords` (or no request at
all); the sanitized excerpt contains no ASCII control character, contains
no triple-backtick code-fence marker, and is at most 2000 characters; and
every sanitized keyword is non-empty, shorter than 50 characters, and made
only of word characters, whitespace, CJK characters, and hyphens. -/
theorem sanitize_before_ai (env : TickEnv) (content : List Char)
    (keywords : List (List Char)) :
    ((analyzeSignalT env content keywords).2 = [] ∨
      (analyzeSignalT env content keywords).2 =
        [Event.aiRequest (sanitizeInput content) (sanitizeKeywords keywords)]) ∧
    (∀ c ∈ sanitizeInput content, isControlChar c = false) ∧
    hasTripleTick (sanitizeInput content) = false ∧
    (sanitizeInput content).length ≤ 2000 ∧
    ∀ k ∈ sanitizeKeywords keywords,
      k ≠ [] ∧ k.length < 50 ∧ ∀ c ∈ k, isKeywordChar c = true := by
  refine ⟨analyzeSignalT_events env content keywords, ?_, ?_, ?_, ?_⟩
  · intro c hc
    unfold sanitizeInput at hc
    have hc2 := (List.take_sublist _ _).subset hc
    rcases mem_replaceTicks _ _ (Nat.le_refl _) c hc2 with hm | hm
    · have := List.of_mem_filter hm
      exact of_decide_eq_true this
    · subst hm
      rfl
  · unfold sanitizeInput
    exact hasTripleTick_take _ _ (replaceTicks_no_triple _ _ (Nat.le_refl _))
  · unfold sanitizeInput
    rw [List.length_take]
    exact Nat.min_le_left _ _
  · intro k hk
    unfold sanitizeKeywords at hk
    rcases List.mem_filter.mp hk with ⟨hmem, hpred⟩
    rcases List.mem_map.mp hmem with ⟨k0, hk0, hmap⟩
    subst hmap
    rw [Bool.and_eq_true, decide_eq_true_eq, decide_eq_true_eq] at hpred
    refine ⟨?_, hpred.2, ?_⟩
    · intro hnil
      rw [hnil] at hpred
      simp at hpred
    · intro c hc
      have := mem_trimL _ c hc
      exact List.of_mem_filter this

/-- Witness for C7 at concrete adversarial inputs: a control character and
a code fence in the content; punctuation, an empty keyword, and an
over-long keyword in the list. -/
theorem sanitize_before_ai_witness :
    ((analyzeSignalT wEnv wContent wKeywords).2 = [] ∨
      (analyzeSignalT wEnv wContent wKeywords).2 =
        [Event.aiRequest (sanitizeInput wContent) (sanitizeKeywords wKeywords)]) ∧
    isControlChar 'a' = false ∧
    hasTripleTick (sanitizeInput wContent) = false ∧
    (sanitizeInput wContent).length ≤ 2000 ∧
    ("AI".toList ≠ [] ∧ "AI".toList.length < 50 ∧
      ∀ c ∈ "AI".toList, isKeywordChar c = true) := by
  obtain ⟨h1, h2, h3, h4, h5⟩ := sanitize_before_ai wEnv wContent wKeywords
  exact ⟨h1, h2 'a' (by decide), h3, h4, h5 "AI".toList (by decide)⟩

/-! ## Tick-trace lemmas -/

lemma joinWith_cons_ex (sep e : List Char) (rest : List (List Char)) :
    ∃ tail, joinWith sep (e :: rest) = e ++ tail := by
  cases rest with
  | nil => exact ⟨[], by simp [joinWith]⟩
  | cons f r =>
    refine ⟨sep ++ joinWith sep (f :: r), ?_⟩
    show (e ++ sep ++ joinWith sep (f :: r)) = _
    rw [List.append_assoc]

lemma generateNoise_head (rng : Nat → Nat) :
    ∃ r, generateNoise rng = '0' :: 'x' :: r := by
  unfold generateNoise
  dsimp only
  rw [List.range_succ_eq_map (rng 0 % 3), List.map_cons]
  obtain ⟨tail, htail⟩ := joinWith_cons_ex ['\n'] _ _
  rw [htail]
  rw [List.cons_append, List.cons_append]
  exact ⟨_, rfl⟩

lemma generateNoise_ne_contentUpdated (rng : Nat → Nat) (t : Target) :
    generateNoise rng ≠ contentUpdatedMsg t := by
  obtain ⟨r, hr⟩ := generateNoise_head rng
  have hform : contentUpdatedMsg t =
      '[' :: ("SCAN] ".toList ++ displayName t ++ " - Content updated, no signal".toList) :=
    rfl
  rw [hr, hform]
  intro hc
  injection hc with h1 _
  exact absurd h1 (by decide)

lemma checkForSignalCore_changed (hashFn : List Char → String) (text : List Char)
    (keywords : List (List Char)) (lastHash : Option String)
    (hch : ∀ h, lastHash = some h → hashFn text ≠ h) :
    checkForSignalCore hashFn text keywords lastHash =
      if (matchKeywords text keywords).isEmpty then ⟨true, [], [], hashFn text⟩
      else ⟨true, matchKeywords text keywords,
        extractRelevantContent text (matchKeywords text keywords), hashFn text⟩ := by
  unfold checkForSignalCore
  dsimp only
  rcases hl : lastHash with _ | hsh
  · simp
  · have hne := hch hsh hl
    have hb : (hashFn text != hsh) = true := bne_iff_ne.mpr hne
    dsimp only
    rw [hb]
    simp

lemma counts_of_processTarget_matched (env : TickEnv) (t : Target) (text : List Char)
    (hfetch : env.fetchO t.url = .ok text)
    (hm : (checkForSignalCore env.hashFn text t.keywords t.last_hash).matched ≠ []) :
    countEvents (isSignalEventFor t.tid) (processTarget env t) = 1 ∧
    countEvents (isUpdateFpFor t.tid) (processTarget env t) = 1 ∧
    countEvents (isCreateSignalFor t.tid) (processTarget env t) = 1 ∧
    countEvents (isNoiseMsg (contentUpdatedMsg t)) (processTarget env t) = 0 := by
  obtain ⟨aiEvs, aiS, aiT, aiC, hcase, htrace⟩ := processTarget_matched env t text hfetch hm
  rcases hcase with h | ⟨c, k, h⟩ <;> subst h <;> rw [htrace] <;>
    simp [countEvents, List.filter_cons, List.filter_append, isSignalEventFor,
      isUpdateFpFor, isCreateSignalFor, isNoiseMsg]

lemma countEvents_append (p : Event → Bool) (a b : List Event) :
    countEvents p (a ++ b) = countEvents p a + countEvents p b := by
  simp [countEvents, List.filter_append]

lemma tick_cons (env : TickEnv) (t : Target) (rest : List Target) :
    tick env (t :: rest) =
      processTarget env t ++ ((rest.map (processTarget env)).flatten ++
        [Event.noise (generateNoise env.rng)]) := by
  unfold tick
  simp

/-- C5: in a tick where the owner has one active target, the fetch
succeeds, one of the target's keywords occurs (case-insensitively) in the
fetched text, and the new fingerprint differs from the stored one, exactly
one signal event is emitted for that target, no "content updated" noise
line is emitted for it in the same tick, and storage receives exactly one
`updateFingerprint` and exactly one `createSignal` call for it. -/
theorem tick_signal_exactly_once (env : TickEnv) (t : Target) (text kw : List Char)
    (hfetch : env.fetchO t.url = .ok text)
    (hchanged : ∀ h, t.last_hash = some h → env.hashFn text ≠ h)
    (hkw : kw ∈ t.keywords) (hmatch : containsSub (lowerL text) (lowerL kw) = true) :
    countEvents (isSignalEventFor t.tid) (tick env [t]) = 1 ∧
    countEvents (isNoiseMsg (contentUpdatedMsg t)) (tick env [t]) = 0 ∧
    countEvents (isUpdateFpFor t.tid) (tick env [t]) = 1 ∧
    countEvents (isCreateSignalFor t.tid) (tick env [t]) = 1 := by
  have hmem : kw ∈ matchKeywords text t.keywords := by
    unfold matchKeywords
    exact List.mem_filter.mpr ⟨hkw, hmatch⟩
  have hne : matchKeywords text t.keywords ≠ [] := List.ne_nil_of_mem hmem
  have hie : (matchKeywords text t.keywords).isEmpty = false := by
    simpa [List.isEmpty_eq_false] using hne
  have hm : (checkForSignalCore env.hashFn text t.keywords t.last_hash).matched ≠ [] := by
    rw [checkForSignalCore_changed env.hashFn text t.keywords t.last_hash hchanged, if_neg ?_]
    · exact hne
    · rw [hie]
      simp
  obtain ⟨c1, c2, c3, c4⟩ := counts_of_processTarget_matched env t text hfetch hm
  have hnoise : isNoiseMsg (contentUpdatedMsg t) (Event.noise (generateNoise env.rng))
      = false := by
    unfold isNoiseMsg
    simpa using generateNoise_ne_contentUpdated env.rng t
  rw [tick_cons]
  simp only [List.map_nil, List.flatten_nil, List.nil_append]
  refine ⟨?_, ?_, ?_, ?_⟩
  · rw [countEvents_append, c1]
    simp [countEvents, isSignalEventFor]
  · rw [countEvents_append, c4]
    simp [countEvents, List.filter_cons, hnoise]
  · rw [countEvents_append, c2]
    simp [countEvents, isUpdateFpFor]
  · rw [countEvents_append, c3]
    simp [countEvents, isCreateSignalFor]

/-- Witness for C5 at a concrete environment and target: one target with
keyword `AI`, page text containing `AI`, stored hash differing from the
computed one. -/
theorem tick_signal_exactly_once_witness :
    countEvents (isSignalEventFor wTarget.tid) (tick wEnv [wTarget]) = 1 ∧
    countEvents (isNoiseMsg (contentUpdatedMsg wTarget)) (tick wEnv [wTarget]) = 0 ∧
    countEvents (isUpdateFpFor wTarget.tid) (tick wEnv [wTarget]) = 1 ∧
    countEvents (isCreateSignalFor wTarget.tid) (tick wEnv [wTarget]) = 1 := by
  refine tick_signal_exactly_once wEnv wTarget "AI news today".toList "AI".toList rfl ?_
    (by decide) (by decide)
  intro h hh
  cases hh

/-! ## Message disequalities -/

lemma generateNoise_ne_errorLine (rng : Nat → Nat) (t : Target) (e : List Char) :
    generateNoise rng ≠ errorLine t e := by
  obtain ⟨r, hr⟩ := generateNoise_head rng
  have hform : errorLine t e =
      '[' :: ("ERROR] ".toList ++ displayName t ++ " - ".toList ++ e) := rfl
  rw [hr, hform]
  intro hc
  injection hc with h1 _
  exact absurd h1 (by decide)

lemma generateNoise_ne_noChange (rng : Nat → Nat) (t : Target) :
    generateNoise rng ≠ noChangeMsg t := by
  obtain ⟨r, hr⟩ := generateNoise_head rng
  have hform : noChangeMsg t =
      '[' :: ("SCAN] ".toList ++ displayName t ++ " - No change detected".toList) := rfl
  rw [hr, hform]
  intro hc
  injection hc with h1 _
  exact absurd h1 (by decide)

lemma errorLine_ne_contentUpdated (t1 t2 : Target) (e : List Char) :
    errorLine t1 e ≠ contentUpdatedMsg t2 := by
  have h1 : errorLine t1 e =
      '[' :: 'E' :: ("RROR] ".toList ++ displayName t1 ++ " - ".toList ++ e) := rfl
  have h2 : contentUpdatedMsg t2 =
      '[' :: 'S' :: ("CAN] ".toList ++ displayName t2 ++
        " - Content updated, no signal".toList) := rfl
  rw [h1, h2]
  intro hc
  injection hc with _ hc2
  injection hc2 with hc3 _
  exact absurd hc3 (by decide)

lemma errorLine_ne_noChange (t1 t2 : Target) (e : List Char) :
    errorLine t1 e ≠ noChangeMsg t2 := by
  have h1 : errorLine t1 e =
      '[' :: 'E' :: ("RROR] ".toList ++ displayName t1 ++ " - ".toList ++ e) := rfl
  have h2 : noChangeMsg t2 =
      '[' :: 'S' :: ("CAN] ".toList ++ displayName t2 ++ " - No change detected".toList) := rfl
  rw [h1, h2]
  intro hc
  injection hc with _ hc2
  injection hc2 with hc3 _
  exact absurd hc3 (by decide)

lemma contentUpdated_ne_noChange (t : Target) : contentUpdatedMsg t ≠ noChangeMsg t := by
  have h1 : contentUpdatedMsg t =
      ("[SCAN] ".toList ++ displayName t) ++ " - Content updated, no signal".toList := by
    unfold contentUpdatedMsg
    rw [List.append_assoc]
  have h2 : noChangeMsg t =
      ("[SCAN] ".toList ++ displayName t) ++ " - No change detected".toList := by
    unfold noChangeMsg
    rw [List.append_assoc]
  rw [h1, h2]
  intro hc
  have := List.append_cancel_left hc
  exact absurd this (by decide)

lemma checkForSignalCore_eval_nomatch (hashFn : List Char → String) (text : List Char)
    (keywords : List (List Char)) (lastHash : Option String)
    (hnm : matchKeywords text keywords = []) :
    checkForSignalCore hashFn text keywords lastHash =
      ⟨(match lastHash with
        | none => true
        | some h => hashFn text != h), [], [], hashFn text⟩ := by
  unfold checkForSignalCore
  dsimp only
  rcases lastHash with _ | h0
  · simp [hnm]
  · dsimp only
    cases hbv : (hashFn text != h0) <;> simp [hbv, hnm]

lemma processTarget_nomatch (env : TickEnv) (t : Target) (text : List Char)
    (hfetch : env.fetchO t.url = .ok text)
    (hnm : matchKeywords text t.keywords = []) :
    processTarget env t =
        [Event.updateFingerprint t.tid (env.hashFn text),
          Event.noise (contentUpdatedMsg t)] ∨
      processTarget env t =
        [Event.updateFingerprint t.tid (env.hashFn text), Event.noise (noChangeMsg t)] := by
  unfold processTarget
  rw [hfetch]
  dsimp only
  rw [checkForSignalCore_eval_nomatch env.hashFn text t.keywords t.last_hash hnm]
  rcases t.last_hash with _ | h0
  · left
    simp
  · dsimp only
    by_cases hp : env.hashFn text = h0
    · right
      simp [hp]
    · left
      have hbt : (env.hashFn text != h0) = true := bne_iff_ne.mpr hp
      simp [hbt]

/-- C6: the tick trace is the concatenation of independent per-target
segments followed by one decorative noise event, a target whose fetch
throws contributes exactly its one `[ERROR]` noise line (so the scan
continues with the remaining targets); and in the two-target scenario —
first fetch throws, second succeeds with no keyword match — exactly one
error-noise line is emitted for target 1, exactly one updated/no-change
noise line for target 2, and the whole cycle is the value above (it
completes without aborting). -/
theorem tick_error_isolation (env : TickEnv) (ts : List Target) :
    (tick env ts = if ts.isEmpty then [Event.noise (generateNoise env.rng)]
      else (ts.map (processTarget env)).flatten ++ [Event.noise (generateNoise env.rng)]) ∧
    (∀ t e, env.fetchO t.url = .error e →
      processTarget env t = [Event.noise (errorLine t e)]) ∧
    (∀ t1 t2 text2 e, ts = [t1, t2] →
      env.fetchO t1.url = .error e →
      env.fetchO t2.url = .ok text2 →
      matchKeywords text2 t2.keywords = [] →
      countEvents (isNoiseMsg (errorLine t1 e)) (tick env ts) = 1 ∧
      countEvents (isNoiseMsg (contentUpdatedMsg t2)) (tick env ts)
          + countEvents (isNoiseMsg (noChangeMsg t2)) (tick env ts) = 1 ∧
      tick env ts = Event.noise (errorLine t1 e) ::
        (processTarget env t2 ++ [Event.noise (generateNoise env.rng)])) := by
  have herrseg : ∀ t e, env.fetchO t.url = .error e →
      processTarget env t = [Event.noise (errorLine t e)] := by
    intro t e he
    unfold processTarget
    rw [he]
  refine ⟨rfl, herrseg, ?_⟩
  intro t1 t2 text2 e hts h1 h2 hnm
  subst hts
  have htr : tick env [t1, t2] = Event.noise (errorLine t1 e) ::
      (processTarget env t2 ++ [Event.noise (generateNoise env.rng)]) := by
    rw [tick_cons, herrseg t1 e h1]
    simp
  have s1 : contentUpdatedMsg t2 ≠ errorLine t1 e :=
    Ne.symm (errorLine_ne_contentUpdated t1 t2 e)
  have s2 : noChangeMsg t2 ≠ errorLine t1 e := Ne.symm (errorLine_ne_noChange t1 t2 e)
  have s3 : errorLine t1 e ≠ contentUpdatedMsg t2 := errorLine_ne_contentUpdated t1 t2 e
  have s4 : errorLine t1 e ≠ noChangeMsg t2 := errorLine_ne_noChange t1 t2 e
  have s5 : contentUpdatedMsg t2 ≠ noChangeMsg t2 := contentUpdated_ne_noChange t2
  have s6 : noChangeMsg t2 ≠ contentUpdatedMsg t2 := Ne.symm (contentUpdated_ne_noChange t2)
  have g1 : generateNoise env.rng ≠ errorLine t1 e := generateNoise_ne_errorLine env.rng t1 e
  have g2 : generateNoise env.rng ≠ contentUpdatedMsg t2 :=
    generateNoise_ne_contentUpdated env.rng t2
  have g3 : generateNoise env.rng ≠ noChangeMsg t2 := generateNoise_ne_noChange env.rng t2
  refine ⟨?_, ?_, htr⟩ <;> rw [htr] <;>
    rcases processTarget_nomatch env t2 text2 h2 hnm with hseg | hseg <;> rw [hseg] <;>
    simp [countEvents, List.filter_cons, isNoiseMsg, s1, s2, s3, s4, s5, s6, g1, g2, g3]

/-- Witness for C6 at a concrete environment: target 3's fetch throws
`Timeout`, target 4 fetches fine with no keyword match. -/
theorem tick_error_isolation_witness :
    countEvents (isNoiseMsg (errorLine wTargetErr "Timeout".toList))
        (tick wEnv2 [wTargetErr, wTargetQuiet]) = 1 ∧
    countEvents (isNoiseMsg (contentUpdatedMsg wTargetQuiet))
          (tick wEnv2 [wTargetErr, wTargetQuiet])
        + countEvents (isNoiseMsg (noChangeMsg wTargetQuiet))
          (tick wEnv2 [wTargetErr, wTargetQuiet]) = 1 ∧
    tick wEnv2 [wTargetErr, wTargetQuiet] =
      Event.noise (errorLine wTargetErr "Timeout".toList) ::
        (processTarget wEnv2 wTargetQuiet ++ [Event.noise (generateNoise wEnv2.rng)]) := by
  obtain ⟨-, -, h3⟩ := tick_error_isolation wEnv2 [wTargetErr, wTargetQuiet]
  exact h3 wTargetErr wTargetQuiet "quiet page".toList "Timeout".toList rfl rfl rfl
    (by decide)

/-- C2: `validateUrl` throws the invalid-format error whenever the string
does not parse as an absolute URL, the protocol error whenever the scheme
is not http/https, and an SSRF-blocked error whenever the (lowercased)
hostname is a localhost alias, an IPv4 literal in one of the blocked
private/link-local/loopback ranges, or a cloud-metadata hostname; and on
`https://example.com` and `http://example.com:8080/api` it returns the
normalized href with scheme, host, and path unchanged. -/
theorem validateUrl_spec (s : String) :
    (parseURL s = none → validateUrl s = .error "Invalid URL format") ∧
    (∀ u, parseURL s = some u → u.protocol ∉ (["http:", "https:"] : List String) →
      validateUrl s = .error "Only HTTP/HTTPS protocols allowed") ∧
    (∀ u, parseURL s = some u → u.protocol ∈ (["http:", "https:"] : List String) →
      ((lowerL u.hostname.toList).asString ∈ localhostPatterns ∨
        (∃ q, parseIPv4 ((lowerL u.hostname.toList).asString) = some q ∧ inPrivateRange q) ∨
        (lowerL u.hostname.toList).asString ∈ blockedHosts) →
      ∃ msg ∈ ssrfMessages, validateUrl s = .error msg) ∧
    validateUrl "https://example.com" = .ok "https://example.com/" ∧
    validateUrl "http://example.com:8080/api" = .ok "http://example.com:8080/api" := by
  refine ⟨?_, ?_, ?_, by decide, by decide⟩
  · intro h
    unfold validateUrl
    rw [h]
  · intro u hu hproto
    unfold validateUrl
    rw [hu]
    dsimp only
    have hcf : (["http:", "https:"].contains u.protocol) = false := by
      rw [Bool.eq_false_iff]
      intro hc
      exact hproto (List.mem_of_elem_eq_true hc)
    rw [hcf]
    simp
  · intro u hu hproto hblock
    unfold validateUrl
    rw [hu]
    dsimp only
    have hct : (["http:", "https:"].contains u.protocol) = true :=
      List.elem_eq_true_of_mem hproto
    rw [hct]
    simp only [Bool.true_eq_false, if_false]
    rcases hblock with hl | ⟨⟨a, b, c, d⟩, hip, hrange⟩ | hmeta
    · rw [if_pos (List.elem_eq_true_of_mem hl)]
      exact ⟨"Access to localhost is not allowed", by decide, rfl⟩
    · by_cases hloc :
          (localhostPatterns.contains ((lowerL u.hostname.toList).asString)) = true
      · rw [if_pos hloc]
        exact ⟨"Access to localhost is not allowed", by decide, rfl⟩
      · rw [if_neg hloc, hip]
        dsimp only
        unfold inPrivateRange at hrange
        dsimp only at hrange
        rcases hrange with ha | ⟨ha, hb1, hb2⟩ | ⟨ha, hb⟩ | ⟨ha, hb⟩ | ha
        · subst ha
          rw [if_pos rfl]
          exact ⟨"Access to private IP range (10.x.x.x) is not allowed", by decide, rfl⟩
        · subst ha
          rw [if_neg (by decide), if_pos ⟨rfl, hb1, hb2⟩]
          exact ⟨"Access to private IP range (172.16-31.x.x) is not allowed", by decide, rfl⟩
        · subst ha
          subst hb
          rw [if_neg (by decide), if_neg (by decide), if_pos ⟨rfl, rfl⟩]
          exact ⟨"Access to private IP range (192.168.x.x) is not allowed", by decide, rfl⟩
        · subst ha
          subst hb
          rw [if_neg (by decide), if_neg (by decide), if_neg (by decide), if_pos ⟨rfl, rfl⟩]
          exact ⟨"Access to link-local/metadata IP is not allowed", by decide, rfl⟩
        · subst ha
          rw [if_neg (by decide),
            if_neg (fun hcc => absurd hcc.1 (by decide)),
            if_neg (fun hcc => absurd hcc.1 (by decide)),
            if_neg (fun hcc => absurd hcc.1 (by decide)),
            if_pos rfl]
          exact ⟨"Access to loopback IP is not allowed", by decide, rfl⟩
    · by_cases hloc :
          (localhostPatterns.contains ((lowerL u.hostname.toList).asString)) = true
      · rw [if_pos hloc]
        exact ⟨"Access to localhost is not allowed", by decide, rfl⟩
      · rw [if_neg hloc]
        have hmeta2 := hmeta
        simp only [blockedHosts, List.mem_cons, List.mem_singleton,
          List.not_mem_nil, or_false] at hmeta2
        rcases hmeta2 with hh | hh | hh
        · rw [hh, show parseIPv4 "metadata.google.internal" = none from by decide]
          dsimp only
          unfold metadataCheck
          rw [if_pos (by decide)]
          exact ⟨"Access to cloud metadata endpoints is not allowed", by decide, rfl⟩
        · rw [hh, show parseIPv4 "metadata.gke.internal" = none from by decide]
          dsimp only
          unfold metadataCheck
          rw [if_pos (by decide)]
          exact ⟨"Access to cloud metadata endpoints is not allowed", by decide, rfl⟩
        · rw [hh, show parseIPv4 "kubernetes.default.svc" = none from by decide]
          dsimp only
          unfold metadataCheck
          rw [if_pos (by decide)]
          exact ⟨"Access to cloud metadata endpoints is not allowed", by decide, rfl⟩

/-- Witness for C2 at concrete URLs: one unparsable string, one non-HTTP
scheme, one private-range IPv4 literal, and the two normalized successes. -/
theorem validateUrl_spec_witness :
    validateUrl "notaurl" = .error "Invalid URL format" ∧
    validateUrl "ftp://files.example.com" = .error "Only HTTP/HTTPS protocols allowed" ∧
    (∃ msg ∈ ssrfMessages, validateUrl "http://10.0.0.1" = .error msg) ∧
    validateUrl "https://example.com" = .ok "https://example.com/" ∧
    validateUrl "http://example.com:8080/api" = .ok "http://example.com:8080/api" := by
  obtain ⟨h1a, -, -, -, -⟩ := validateUrl_spec "notaurl"
  obtain ⟨-, h2a, -, -, -⟩ := validateUrl_spec "ftp://files.example.com"
  obtain ⟨-, -, h3a, h4, h5⟩ := validateUrl_spec "http://10.0.0.1"
  refine ⟨h1a (by decide), ?_, ?_, h4, h5⟩
  · exact h2a ⟨"ftp:", "files.example.com", none, "/", true⟩ (by decide) (by decide)
  · exact h3a ⟨"http:", "10.0.0.1", none, "/", true⟩ (by decide) (by decide)
      (Or.inr (Or.inl ⟨(10, 0, 0, 1), by decide, by decide⟩))

end LastSentinel
